import Mathlib

/-!
Verification development for the llmux gateway (routing, caching, and the
OpenResponses streaming adapter).  Each definition is a shallow embedding of
the corresponding TypeScript source: `src/src/types.ts`,
`src/unnamed/part_006` (cache manager), `src/workers/src/cache.ts`,
`src/src/router.ts`, `src/workers/src/router.ts`,
`src/src/open-responses-types.ts` and `src/src/adapters/openai-adapter.ts`.

JavaScript numbers occurring in requests (temperature, top_p, ...) are
modelled as `Rat`; UTF-16 code units are modelled as Unicode code points.
`undefined`/`null` request fields are modelled as `none`.
-/

set_option maxHeartbeats 1000000

namespace LLMux

/-! ## Data model (`src/src/types.ts`) -/

/-- `ChatMessage.role`: `'system' | 'user' | 'assistant' | 'tool'`. -/
inductive Role where
  | system | user | assistant | tool
  deriving DecidableEq, Repr

/-- `ToolCall` from `types.ts`: `{id, type: 'function', function: {name, arguments}}`. -/
structure ToolCall where
  id : String
  functionName : String
  functionArguments : String
  deriving DecidableEq, Repr

/-- `ChatMessage` from `types.ts`.  `content` is `string | null`. -/
structure ChatMessage where
  role : Role
  content : Option String
  name : Option String := none
  tool_calls : Option (List ToolCall) := none
  tool_call_id : Option String := none
  deriving DecidableEq, Repr

/-- `stop?: string | string[]`. -/
inductive StopField where
  | str (s : String)
  | arr (l : List String)
  deriving DecidableEq, Repr

/-- `ChatCompletionRequest` from `types.ts` (gateway extensions included). -/
structure ChatCompletionRequest where
  model : String
  messages : List ChatMessage
  temperature : Option Rat := none
  top_p : Option Rat := none
  max_tokens : Option Nat := none
  stream : Option Bool := none
  stop : Option StopField := none
  presence_penalty : Option Rat := none
  frequency_penalty : Option Rat := none
  user : Option String := none
  provider : Option String := none
  cache : Option Bool := none
  deriving DecidableEq, Repr

/-- `Usage` from `types.ts`. -/
structure Usage where
  prompt_tokens : Nat
  completion_tokens : Nat
  total_tokens : Nat
  deriving DecidableEq, Repr

/-- `finish_reason ∈ {stop, length, tool_calls, null}`; `none` models `null`. -/
inductive FinishReason where
  | stop | length | tool_calls
  deriving DecidableEq, Repr

/-- `ChatCompletionChoice` from `types.ts`. -/
structure ChatCompletionChoice where
  index : Nat
  message : ChatMessage
  finish_reason : Option FinishReason
  deriving DecidableEq, Repr

/-- `ChatCompletionResponse` from `types.ts` (with llmux additions). -/
structure ChatCompletionResponse where
  id : String
  created : Nat
  model : String
  choices : List ChatCompletionChoice
  usage : Usage
  provider : Option String := none
  cached : Option Bool := none
  deriving DecidableEq, Repr

/-! ## JSON serialization (model of `JSON.stringify` as used by
`generateCacheKey`).  Fields whose value is `undefined` are omitted, `null`
is kept; object fields appear in the declaration order of the source
literals. -/

/-- JSON string escaping: `"`, `\`, and control characters. -/
def jsonEscapeChar (c : Char) : String :=
  if c = '"' then "\\\""
  else if c = '\\' then "\\\\"
  else if c = '\n' then "\\n"
  else if c = '\r' then "\\r"
  else if c = '\t' then "\\t"
  else if c = (Char.ofNat 8) then "\\b"
  else if c = (Char.ofNat 12) then "\\f"
  else if c.toNat < 32 then
    "\\u00" ++ String.mk [Nat.digitChar (c.toNat / 16), Nat.digitChar (c.toNat % 16)]
  else String.singleton c

def jsonStr (s : String) : String :=
  "\"" ++ String.join (s.data.map jsonEscapeChar) ++ "\""

/-- A JSON number as produced for a `Rat` (abstraction of JS float printing;
injective on `Rat`, which is all the cache-key development relies on). -/
def jsonNum (q : Rat) : String :=
  if q.den = 1 then toString q.num else toString q.num ++ "/" ++ toString q.den

def jsonNat (n : Nat) : String := toString n

/-- Render a list of already-serialized members as a JSON array. -/
def jsonArray (elems : List String) : String :=
  "[" ++ String.intercalate "," elems ++ "]"

/-- Render present fields (name, serialized value) as a JSON object;
absent (`undefined`) fields have been dropped by the caller. -/
def jsonObject (fields : List (String × String)) : String :=
  "\x7b" ++ String.intercalate "," (fields.map fun f => jsonStr f.1 ++ ":" ++ f.2) ++ "\x7d"

/-- An optional field: `none` (undefined) serializes to no field at all. -/
def optField (nm : String) (v : Option String) : List (String × String) :=
  match v with
  | none => []
  | some s => [(nm, s)]

def jsonOfRole : Role → String
  | .system => jsonStr "system"
  | .user => jsonStr "user"
  | .assistant => jsonStr "assistant"
  | .tool => jsonStr "tool"

def jsonOfToolCall (tc : ToolCall) : String :=
  jsonObject [("id", jsonStr tc.id), ("type", jsonStr "function"),
    ("function", jsonObject [("name", jsonStr tc.functionName),
      ("arguments", jsonStr tc.functionArguments)])]

def jsonOfMessage (m : ChatMessage) : String :=
  jsonObject ([("role", jsonOfRole m.role),
      ("content", match m.content with | none => "null" | some s => jsonStr s)]
    ++ optField "name" (m.name.map jsonStr)
    ++ optField "tool_calls" ((m.tool_calls.map fun l => jsonArray (l.map jsonOfToolCall)))
    ++ optField "tool_call_id" (m.tool_call_id.map jsonStr))

def jsonOfStop : StopField → String
  | .str s => jsonStr s
  | .arr l => jsonArray (l.map jsonStr)

/-- The `keyData` object serialized by both `generateCacheKey` functions:
exactly `model, messages, temperature, top_p, max_tokens, stop,
presence_penalty, frequency_penalty`, in source order. -/
def cacheKeyJson (r : ChatCompletionRequest) : String :=
  jsonObject ([("model", jsonStr r.model),
      ("messages", jsonArray (r.messages.map jsonOfMessage))]
    ++ optField "temperature" (r.temperature.map jsonNum)
    ++ optField "top_p" (r.top_p.map jsonNum)
    ++ optField "max_tokens" (r.max_tokens.map jsonNat)
    ++ optField "stop" (r.stop.map jsonOfStop)
    ++ optField "presence_penalty" (r.presence_penalty.map jsonNum)
    ++ optField "frequency_penalty" (r.frequency_penalty.map jsonNum))

/-! ## SHA-256 (`createHash('sha256')` in `src/unnamed/part_006`),
over `Nat` with explicit `% 2^32`. -/

/-- UTF-8 encoding of one code point, as a list of byte values. -/
def utf8Bytes (c : Char) : List Nat :=
  let n := c.toNat
  if n < 0x80 then [n]
  else if n < 0x800 then [0xc0 + n / 64, 0x80 + n % 64]
  else if n < 0x10000 then [0xe0 + n / 4096, 0x80 + (n / 64) % 64, 0x80 + n % 64]
  else [0xf0 + n / 262144, 0x80 + (n / 4096) % 64, 0x80 + (n / 64) % 64, 0x80 + n % 64]

def strUtf8 (s : String) : List Nat := s.data.flatMap utf8Bytes

namespace SHA256

def w32 (n : Nat) : Nat := n % 4294967296

def add32 (a b : Nat) : Nat := w32 (a + b)

def rotr (n x : Nat) : Nat :=
  w32 ((x >>> n) ||| (x <<< (32 - n)))

def shr (n x : Nat) : Nat := x >>> n

def bnot32 (x : Nat) : Nat := Nat.xor x 4294967295

def bigSigma0 (x : Nat) : Nat := Nat.xor (rotr 2 x) (Nat.xor (rotr 13 x) (rotr 22 x))
def bigSigma1 (x : Nat) : Nat := Nat.xor (rotr 6 x) (Nat.xor (rotr 11 x) (rotr 25 x))
def smallSigma0 (x : Nat) : Nat := Nat.xor (rotr 7 x) (Nat.xor (rotr 18 x) (shr 3 x))
def smallSigma1 (x : Nat) : Nat := Nat.xor (rotr 17 x) (Nat.xor (rotr 19 x) (shr 10 x))

def ch (x y z : Nat) : Nat := Nat.xor (Nat.land x y) (Nat.land (bnot32 x) z)
def maj (x y z : Nat) : Nat := Nat.xor (Nat.land x y) (Nat.xor (Nat.land x z) (Nat.land y z))

/-- The 64 round constants of FIPS 180-4, written in decimal. -/
def K : List Nat :=
  [1116352408, 1899447441, 3049323471, 3921009573, 961987163,
   1508970993, 2453635748, 2870763221, 3624381080, 310598401,
   607225278, 1426881987, 1925078388, 2162078206, 2614888103,
   3248222580, 3835390401, 4022224774, 264347078, 604807628,
   770255983, 1249150122, 1555081692, 1996064986, 2554220882,
   2821834349, 2952996808, 3210313671, 3336571891, 3584528711,
   113926993, 338241895, 666307205, 773529912, 1294757372,
   1396182291, 1695183700, 1986661051, 2177026350, 2456956037,
   2730485921, 2820302411, 3259730800, 3345764771, 3516065817,
   3600352804, 4094571909, 275423344, 430227734, 506948616,
   659060556, 883997877, 958139571, 1322822218, 1537002063,
   1747873779, 1955562222, 2024104815, 2227730452, 2361852424,
   2428436474, 2756734187, 3204031479, 3329325298]

/-- The eight initial hash values of FIPS 180-4, written in decimal. -/
def H0 : List Nat :=
  [1779033703, 3144134277, 1013904242, 2773480762,
   1359893119, 2600822924, 528734635, 1541459225]

/-- Message padding: append `0x80`, zeros, and the 64-bit bit length. -/
def pad (msg : List Nat) : List Nat :=
  let len := msg.length
  let zeros := (55 + 64 - len % 64) % 64
  let bitLen := len * 8
  msg ++ [0x80] ++ List.replicate zeros 0 ++
    ((List.range 8).map fun i => (bitLen >>> ((7 - i) * 8)) % 256)

/-- Group bytes into 32-bit big-endian words. -/
def toWords : List Nat → List Nat
  | b0 :: b1 :: b2 :: b3 :: rest => (((b0 * 256 + b1) * 256 + b2) * 256 + b3) :: toWords rest
  | _ => []

/-- Extend 16 words to the 64-entry message schedule. -/
def schedule (ws : List Nat) (i : Nat) : List Nat :=
  match i with
  | 0 => ws
  | j + 1 =>
    let ws' := schedule ws j
    let t := 16 + j
    ws' ++ [add32 (add32 (smallSigma1 (ws'.getD (t - 2) 0)) (ws'.getD (t - 7) 0))
              (add32 (smallSigma0 (ws'.getD (t - 15) 0)) (ws'.getD (t - 16) 0))]

/-- One round of the compression function on `(a,b,c,d,e,f,g,h)`. -/
def round (st : List Nat) (k w : Nat) : List Nat :=
  match st with
  | [a, b, c, d, e, f, g, h] =>
    let t1 := add32 h (add32 (bigSigma1 e) (add32 (ch e f g) (add32 k w)))
    let t2 := add32 (bigSigma0 a) (maj a b c)
    [add32 t1 t2, a, b, c, add32 d t1, e, f, g]
  | st => st

/-- Compress one 16-word block into the hash state. -/
def compress (h : List Nat) (block : List Nat) : List Nat :=
  let ws := schedule block 48
  let st := (K.zip ws).foldl (fun st kw => round st kw.1 kw.2) h
  (h.zip st).map fun p => add32 p.1 p.2

def chunks16 : List Nat → List (List Nat)
  | [] => []
  | w :: ws => (w :: ws).take 16 :: chunks16 ((w :: ws).drop 16)
  termination_by l => l.length
  decreasing_by
    simp [List.length_drop]
    omega

def hexDigit (n : Nat) : Char := Nat.digitChar n

def toHex8 (n : Nat) : String :=
  String.mk ((List.range 8).map fun i => hexDigit ((n >>> ((7 - i) * 4)) % 16))

/-- SHA-256 digest of a byte list, as lowercase hex. -/
def digestHex (msg : List Nat) : String :=
  let blocks := chunks16 (toWords (pad msg))
  let h := blocks.foldl compress H0
  String.join (h.map toHex8)

end SHA256

/-- `generateCacheKey` from `src/unnamed/part_006` (Node version):
SHA-256 hex of the serialized `keyData`. -/
def generateCacheKey (r : ChatCompletionRequest) : String :=
  SHA256.digestHex (strUtf8 (cacheKeyJson r))

/-! ## Workers cache key (`src/workers/src/cache.ts`): folded 32-bit hash. -/

/-- JS `ToInt32`: wrap into `[-2^31, 2^31)`. -/
def toInt32 (n : Int) : Int :=
  let m := n % 4294967296
  if m < 2147483648 then m else m - 4294967296

/-- One step of the workers hash loop:
`hash = ((hash << 5) - hash) + char; hash = hash & hash;`. -/
def workersHashStep (h : Int) (c : Nat) : Int :=
  toInt32 (toInt32 (h * 32) - h + c)

def workersHash (s : String) : Int :=
  s.data.foldl (fun h c => workersHashStep h c.toNat) 0

/-- `Math.abs(hash).toString(16)` (lowercase hex, `"0"` for zero). -/
def natToHex (n : Nat) : String :=
  if n = 0 then "0" else String.mk (Nat.toDigits 16 n)

/-- `generateCacheKey` from `src/workers/src/cache.ts`:
`llmux:<hex of |hash|>:<json length>`. -/
def workersGenerateCacheKey (r : ChatCompletionRequest) : String :=
  let json := cacheKeyJson r
  "llmux:" ++ natToHex (workersHash json).natAbs ++ ":" ++ toString json.length

/-! ## Cache manager (`src/unnamed/part_006`).  The KV backend is modelled
as an association list; `set` prepends and `lookup` takes the newest
binding.  `createCache` returns `null` exactly when caching is disabled,
so `cache = none ↔ ¬enabled` for managers built by the constructor. -/

/-- `CacheManager` state: the `enabled` flag and the backend (`this.cache`,
`null` when `createCache` returned `null`). -/
structure CacheManager where
  enabled : Bool
  cache : Option (List (String × ChatCompletionResponse))
  deriving DecidableEq, Repr

/-- `CacheManager.isEnabled()`: `this.enabled && this.cache !== null`. -/
def CacheManager.isEnabled (m : CacheManager) : Bool :=
  m.enabled && m.cache.isSome

/-- `MemoryCache.get` marks a hit with `cached: true`. -/
def markCached (r : ChatCompletionResponse) : ChatCompletionResponse :=
  { r with cached := some true }

/-- `CacheManager.get(request)`: checks `isEnabled()` and the per-request
`cache === false` override, then consults the backend.  There is no check
of `request.stream` here. -/
def CacheManager.get (m : CacheManager) (req : ChatCompletionRequest) :
    Option ChatCompletionResponse :=
  if !m.isEnabled then none
  else if req.cache = some false then none
  else ((m.cache.getD []).lookup (generateCacheKey req)).map markCached

/-- `CacheManager.set(request, response)`: no-op when disabled, when the
request sets `cache: false`, or when `request.stream` is truthy. -/
def CacheManager.set (m : CacheManager) (req : ChatCompletionRequest)
    (resp : ChatCompletionResponse) : CacheManager :=
  if !m.isEnabled then m
  else if req.cache = some false then m
  else if req.stream = some true then m
  else { m with cache := some ((generateCacheKey req, resp) :: m.cache.getD []) }

/-! ## Workers cache (`src/workers/src/cache.ts`).  `env.CACHE` is the KV
binding (absent when not configured). -/

structure WorkersEnv where
  cacheKV : Option (List (String × ChatCompletionResponse))
  deriving DecidableEq, Repr

/-- `getFromCache(env, request)`: returns `null` when `env.CACHE` is absent
or `request.cache === false`; otherwise looks the key up and stamps
`cached: true` on a hit.  No check of `request.stream`. -/
def getFromCache (env : WorkersEnv) (req : ChatCompletionRequest) :
    Option ChatCompletionResponse :=
  match env.cacheKV with
  | none => none
  | some kv =>
    if req.cache = some false then none
    else (kv.lookup (workersGenerateCacheKey req)).map markCached

/-- `setInCache(env, request, response)`: no-op when `env.CACHE` is absent,
`request.cache === false`, or `request.stream` is truthy. -/
def setInCache (env : WorkersEnv) (req : ChatCompletionRequest)
    (resp : ChatCompletionResponse) : WorkersEnv :=
  match env.cacheKV with
  | none => env
  | some kv =>
    if req.cache = some false then env
    else if req.stream = some true then env
    else { env with cacheKV := some ((workersGenerateCacheKey req, resp) :: kv) }

/-! ## OpenResponses data model (`src/src/open-responses-types.ts`). -/

inductive ItemStatus where
  | in_progress | incomplete | completed
  deriving DecidableEq, Repr

inductive ResponseStatus where
  | in_progress | incomplete | completed | failed
  deriving DecidableEq, Repr

/-- `Annotation` objects (`{type: string, ...}`); the adapter only ever
produces empty annotation arrays. -/
structure AnnotationData where
  tag : String
  deriving DecidableEq, Repr

inductive OutputContentPart where
  | output_text (text : String) (annotations : List AnnotationData)
  | refusal (refusal : String)
  deriving DecidableEq, Repr

inductive OutputItem where
  | message (id : String) (role : Role) (status : ItemStatus)
      (content : List OutputContentPart)
  | function_call (id : String) (name : String) (call_id : String)
      (arguments : String) (status : ItemStatus)
  deriving DecidableEq, Repr

/-- `Response` (streaming side never sets `error`/`usage`/`provider`/`cached`). -/
structure Response where
  id : String
  status : ResponseStatus
  output : List OutputItem
  model : String
  created_at : Nat
  usage : Option Usage := none
  provider : Option String := none
  cached : Option Bool := none
  deriving DecidableEq, Repr

/-- `StreamEvent` union from `open-responses-types.ts`. -/
inductive StreamEvent where
  | response_created (sequence_number : Nat) (response : Response)
  | response_in_progress (sequence_number : Nat) (response : Response)
  | response_completed (sequence_number : Nat) (response : Response)
  | response_failed (sequence_number : Nat) (response : Response)
  | output_item_added (sequence_number : Nat) (output_index : Nat) (item : OutputItem)
  | output_item_done (sequence_number : Nat) (output_index : Nat) (item : OutputItem)
  | content_part_added (sequence_number : Nat) (item_id : String)
      (output_index : Nat) (content_index : Nat) (part : OutputContentPart)
  | content_part_done (sequence_number : Nat) (item_id : String)
      (output_index : Nat) (content_index : Nat) (part : OutputContentPart)
  | output_text_delta (sequence_number : Nat) (item_id : String)
      (output_index : Nat) (content_index : Nat) (delta : String)
  | output_text_done (sequence_number : Nat) (item_id : String)
      (output_index : Nat) (content_index : Nat) (text : String)
  | function_call_arguments_delta (sequence_number : Nat) (item_id : String)
      (output_index : Nat) (call_id : String) (delta : String)
  | function_call_arguments_done (sequence_number : Nat) (item_id : String)
      (output_index : Nat) (call_id : String) (arguments : String)
  deriving DecidableEq, Repr

/-! ## Streaming chunks (`types.ts`: `StreamChoice`, `ChatCompletionChunk`).
The adapter reads only `delta.content`, `delta.tool_calls` and
`finish_reason` of each choice. -/

structure ToolCallFunctionDelta where
  name : Option String := none
  arguments : Option String := none
  deriving DecidableEq, Repr

structure ToolCallDelta where
  id : Option String := none
  function : Option ToolCallFunctionDelta := none
  deriving DecidableEq, Repr

structure MessageDelta where
  content : Option String := none
  tool_calls : Option (List ToolCallDelta) := none
  deriving DecidableEq, Repr

structure StreamChoice where
  index : Nat := 0
  delta : MessageDelta
  finish_reason : Option FinishReason := none
  deriving DecidableEq, Repr

structure ChatCompletionChunk where
  id : String := ""
  created : Nat := 0
  model : String := ""
  choices : List StreamChoice
  deriving DecidableEq, Repr

/-- JS string truthiness of a `string | null | undefined` value:
truthy iff present and non-empty. -/
def optTruthy : Option String → Bool
  | none => false
  | some s => s != ""

/-! ## Streaming adapter (`streamToEvents` in
`src/src/adapters/openai-adapter.ts`).

The generator's nondeterministic inputs are parameters: `responseId` and
`messageId` (`generateId` at the top), `fcFreshId` and `callFreshId` (the
ids `generateId('fc')` / `generateId('call')` would mint — the
`!functionCallEmitted` guard lets each be minted at most once), and the two
`Date.now()` timestamps. -/

structure AdapterCtx where
  requestModel : String
  responseId : String
  messageId : String
  fcFreshId : String
  callFreshId : String
  created1 : Nat
  created2 : Nat
  deriving Repr

/-- The generator's local mutable state. -/
structure AdapterState where
  seq : Nat
  fcId : Option String := none
  callId : Option String := none
  fcName : Option String := none
  accText : String := ""
  accArgs : String := ""
  outputIndex : Nat := 0
  messageEmitted : Bool := false
  functionCallEmitted : Bool := false
  deriving DecidableEq, Repr

/-- Sequentially process a list of items, accumulating emitted events. -/
def runList (f : AdapterState → α → AdapterState × List StreamEvent) :
    AdapterState → List α → AdapterState × List StreamEvent
  | st, [] => (st, [])
  | st, a :: as =>
    let r1 := f st a
    let r2 := runList f r1.1 as
    (r2.1, r1.2 ++ r2.2)

/-- Sequential composition of two state/event steps. -/
def pcomp (f g : AdapterState → AdapterState × List StreamEvent)
    (st : AdapterState) : AdapterState × List StreamEvent :=
  let r1 := f st
  let r2 := g r1.1
  (r2.1, r1.2 ++ r2.2)

/-- The `call_id` captured when a function call opens:
`toolCallDelta.id || generateId('call')`. -/
def capturedCallId (ctx : AdapterCtx) (tcd : ToolCallDelta) : String :=
  if optTruthy tcd.id then tcd.id.getD "" else ctx.callFreshId

/-- `if (toolCallDelta.function?.name && !functionCallEmitted)`: mint ids,
capture the name, reset `accumulatedArguments`, emit
`response.output_item.added` for the in-progress function call. -/
def fcOpenStep (ctx : AdapterCtx) (tcd : ToolCallDelta)
    (st : AdapterState) : AdapterState × List StreamEvent :=
  if optTruthy (tcd.function.bind (·.name)) && !st.functionCallEmitted then
    (({ st with
        fcId := some ctx.fcFreshId,
        callId := some (capturedCallId ctx tcd),
        fcName := some ((tcd.function.bind (·.name)).getD ""),
        accArgs := "", functionCallEmitted := true,
        seq := st.seq + 1 } : AdapterState),
     [StreamEvent.output_item_added st.seq st.outputIndex
        (.function_call ctx.fcFreshId ((tcd.function.bind (·.name)).getD "")
          (capturedCallId ctx tcd) "" .in_progress)])
  else (st, [])

/-- `if (toolCallDelta.function?.arguments && currentFunctionCallId &&
currentCallId)`: append to `accumulatedArguments`, emit
`response.function_call_arguments.delta`. -/
def fcArgsStep (ctx : AdapterCtx) (tcd : ToolCallDelta)
    (st : AdapterState) : AdapterState × List StreamEvent :=
  if optTruthy (tcd.function.bind (·.arguments)) &&
      optTruthy st.fcId && optTruthy st.callId then
    let args := (tcd.function.bind (·.arguments)).getD ""
    (({ st with accArgs := st.accArgs ++ args, seq := st.seq + 1 } : AdapterState),
     [StreamEvent.function_call_arguments_delta st.seq
        (st.fcId.getD "") st.outputIndex (st.callId.getD "") args])
  else (st, [])

/-- One `toolCallDelta` of the `delta.tool_calls` loop: possibly open the
(single) function call, then possibly append/emit an arguments delta. -/
def processToolCallDelta (ctx : AdapterCtx) (st : AdapterState)
    (tcd : ToolCallDelta) : AdapterState × List StreamEvent :=
  pcomp (fcOpenStep ctx tcd) (fcArgsStep ctx tcd) st

/-- The `delta.tool_calls` handling of one choice (an absent array is
skipped; a present one, even empty, is iterated). -/
def toolCallsStep (ctx : AdapterCtx) (c : StreamChoice)
    (st : AdapterState) : AdapterState × List StreamEvent :=
  match c.delta.tool_calls with
  | some tcs => runList (processToolCallDelta ctx) st tcs
  | none => (st, [])

/-- The `delta.content` handling of one choice: open the (single) message
item on first truthy content, then accumulate and emit the text delta. -/
def contentStep (ctx : AdapterCtx) (c : StreamChoice)
    (st : AdapterState) : AdapterState × List StreamEvent :=
  if optTruthy c.delta.content then
    let contentStr := c.delta.content.getD ""
    let r1 :=
      if !st.messageEmitted then
        (({ st with messageEmitted := true, seq := st.seq + 2 } : AdapterState),
         [StreamEvent.output_item_added st.seq st.outputIndex
            (.message ctx.messageId .assistant .in_progress []),
          StreamEvent.content_part_added (st.seq + 1) ctx.messageId
            st.outputIndex 0 (.output_text "" [])])
      else (st, [])
    let stm := r1.1
    (({ stm with accText := stm.accText ++ contentStr, seq := stm.seq + 1 } : AdapterState),
     r1.2 ++ [StreamEvent.output_text_delta stm.seq ctx.messageId
        stm.outputIndex 0 contentStr])
  else (st, [])

/-- The `choice.finish_reason` handling: close the function call (if its
triple is truthy) and bump `outputIndex`, then close the message (if
emitted) at the post-increment index. -/
def finishStep (ctx : AdapterCtx) (c : StreamChoice)
    (st : AdapterState) : AdapterState × List StreamEvent :=
  if c.finish_reason.isSome then
    let r1 :=
      if optTruthy st.fcId && optTruthy st.callId && optTruthy st.fcName then
        (({ st with outputIndex := st.outputIndex + 1, seq := st.seq + 2 } : AdapterState),
         [StreamEvent.function_call_arguments_done st.seq (st.fcId.getD "")
            st.outputIndex (st.callId.getD "") st.accArgs,
          StreamEvent.output_item_done (st.seq + 1) st.outputIndex
            (.function_call (st.fcId.getD "") (st.fcName.getD "")
              (st.callId.getD "") st.accArgs .completed)])
      else (st, [])
    let stf := r1.1
    if stf.messageEmitted then
      (({ stf with seq := stf.seq + 3 } : AdapterState),
       r1.2 ++ [StreamEvent.output_text_done stf.seq ctx.messageId
          stf.outputIndex 0 stf.accText,
        StreamEvent.content_part_done (stf.seq + 1) ctx.messageId
          stf.outputIndex 0 (.output_text stf.accText []),
        StreamEvent.output_item_done (stf.seq + 2) stf.outputIndex
          (.message ctx.messageId .assistant .completed
            [.output_text stf.accText []])])
    else (stf, r1.2)
  else (st, [])

/-- One `choice` of a chunk: tool calls, then content, then finish. -/
def processChoice (ctx : AdapterCtx) (st : AdapterState)
    (c : StreamChoice) : AdapterState × List StreamEvent :=
  pcomp (toolCallsStep ctx c) (pcomp (contentStep ctx c) (finishStep ctx c)) st

def processChunk (ctx : AdapterCtx) (st : AdapterState)
    (chunk : ChatCompletionChunk) : AdapterState × List StreamEvent :=
  runList (processChoice ctx) st chunk.choices

/-- The placeholder response carried by `response.created` and
`response.in_progress`. -/
def initialResponse (ctx : AdapterCtx) : Response :=
  { id := ctx.responseId, status := .in_progress, output := [],
    model := ctx.requestModel, created_at := ctx.created1 }

/-- The final `output` array: the function call (if its triple is truthy)
then the message (if emitted). -/
def finalOutput (ctx : AdapterCtx) (st : AdapterState) : List OutputItem :=
  (if optTruthy st.fcId && optTruthy st.callId && optTruthy st.fcName then
    [OutputItem.function_call (st.fcId.getD "") (st.fcName.getD "")
      (st.callId.getD "") st.accArgs .completed]
   else [])
  ++ (if st.messageEmitted then
    [OutputItem.message ctx.messageId .assistant .completed
      [.output_text st.accText []]]
   else [])

/-- `streamToEvents`: `response.created`, `response.in_progress`, the
per-chunk events, and the final `response.completed`. -/
def streamToEvents (ctx : AdapterCtx) (chunks : List ChatCompletionChunk) :
    List StreamEvent :=
  let r := runList (processChunk ctx) { seq := 2 } chunks
  StreamEvent.response_created 0 (initialResponse ctx)
    :: StreamEvent.response_in_progress 1 (initialResponse ctx)
    :: r.2 ++ [StreamEvent.response_completed r.1.seq
      { id := ctx.responseId, status := .completed, output := finalOutput ctx r.1,
        model := ctx.requestModel, created_at := ctx.created2 }]

/-! ## Event accessors. -/

def seqNum : StreamEvent → Nat
  | .response_created n _ => n
  | .response_in_progress n _ => n
  | .response_completed n _ => n
  | .response_failed n _ => n
  | .output_item_added n _ _ => n
  | .output_item_done n _ _ => n
  | .content_part_added n _ _ _ _ => n
  | .content_part_done n _ _ _ _ => n
  | .output_text_delta n _ _ _ _ => n
  | .output_text_done n _ _ _ _ => n
  | .function_call_arguments_delta n _ _ _ _ => n
  | .function_call_arguments_done n _ _ _ _ => n

/-- `r` emits events numbered consecutively from `st.seq` and leaves the
counter past them. -/
def SeqSpec (st : AdapterState) (r : AdapterState × List StreamEvent) : Prop :=
  r.2.map seqNum = List.range' st.seq r.2.length ∧ r.1.seq = st.seq + r.2.length

theorem seqSpec_comp {st st1 st2 : AdapterState} {e1 e2 : List StreamEvent}
    (h1 : SeqSpec st (st1, e1)) (h2 : SeqSpec st1 (st2, e2)) :
    SeqSpec st (st2, e1 ++ e2) := by
  obtain ⟨hm1, hs1⟩ := h1
  obtain ⟨hm2, hs2⟩ := h2
  simp only at hm1 hm2 hs1 hs2
  constructor
  · simp only [List.map_append, List.length_append, hm1, hm2, hs1]
    rw [List.range'_append_1, Nat.add_comm]
  · simp only [List.length_append, hs2, hs1]
    omega

theorem seqSpec_pcomp {f g : AdapterState → AdapterState × List StreamEvent}
    {st : AdapterState} (h1 : SeqSpec st (f st))
    (h2 : SeqSpec (f st).1 (g (f st).1)) : SeqSpec st (pcomp f g st) := by
  simp only [pcomp]
  exact seqSpec_comp h1 h2

theorem seqSpec_runList (f : AdapterState → α → AdapterState × List StreamEvent)
    (h : ∀ st a, SeqSpec st (f st a)) :
    ∀ (l : List α) (st : AdapterState), SeqSpec st (runList f st l) := by
  intro l
  induction l with
  | nil => intro st; exact ⟨rfl, rfl⟩
  | cons a as ih =>
    intro st
    have h1 := h st a
    have h2 := ih (f st a).1
    simp only [runList]
    exact seqSpec_comp h1 h2

theorem seqSpec_fcOpenStep (ctx : AdapterCtx) (tcd : ToolCallDelta)
    (st : AdapterState) : SeqSpec st (fcOpenStep ctx tcd st) := by
  unfold fcOpenStep
  split <;> simp [SeqSpec, seqNum, List.range']

theorem seqSpec_fcArgsStep (ctx : AdapterCtx) (tcd : ToolCallDelta)
    (st : AdapterState) : SeqSpec st (fcArgsStep ctx tcd st) := by
  unfold fcArgsStep
  split <;> simp [SeqSpec, seqNum, List.range']

theorem seqSpec_processToolCallDelta (ctx : AdapterCtx) (st : AdapterState)
    (tcd : ToolCallDelta) : SeqSpec st (processToolCallDelta ctx st tcd) :=
  seqSpec_pcomp (seqSpec_fcOpenStep ctx tcd st) (seqSpec_fcArgsStep ctx tcd _)

theorem seqSpec_toolCallsStep (ctx : AdapterCtx) (c : StreamChoice)
    (st : AdapterState) : SeqSpec st (toolCallsStep ctx c st) := by
  unfold toolCallsStep
  split
  · exact seqSpec_runList _ (seqSpec_processToolCallDelta ctx) _ st
  · exact ⟨rfl, rfl⟩

theorem seqSpec_contentStep (ctx : AdapterCtx) (c : StreamChoice)
    (st : AdapterState) : SeqSpec st (contentStep ctx c st) := by
  unfold contentStep
  dsimp only
  split <;> [skip; exact ⟨rfl, rfl⟩]
  split <;> simp_all [SeqSpec, seqNum, List.range']

theorem seqSpec_finishStep (ctx : AdapterCtx) (c : StreamChoice)
    (st : AdapterState) : SeqSpec st (finishStep ctx c st) := by
  unfold finishStep
  dsimp only
  split <;> [skip; exact ⟨rfl, rfl⟩]
  split <;> dsimp only <;> split <;>
    simp_all [SeqSpec, seqNum, List.range']

theorem seqSpec_processChoice (ctx : AdapterCtx) (st : AdapterState)
    (c : StreamChoice) : SeqSpec st (processChoice ctx st c) := by
  unfold processChoice
  exact seqSpec_pcomp (seqSpec_toolCallsStep ctx c st)
    (seqSpec_pcomp (seqSpec_contentStep ctx c _) (seqSpec_finishStep ctx c _))

theorem seqSpec_processChunk (ctx : AdapterCtx) (st : AdapterState)
    (chunk : ChatCompletionChunk) : SeqSpec st (processChunk ctx st chunk) :=
  seqSpec_runList _ (seqSpec_processChoice ctx) _ st

theorem seqSpec_run (ctx : AdapterCtx) (chunks : List ChatCompletionChunk)
    (st : AdapterState) : SeqSpec st (runList (processChunk ctx) st chunks) :=
  seqSpec_runList _ (seqSpec_processChunk ctx) chunks st

theorem getLast?_cons_cons_append (x y a : α) (l : List α) :
    (x :: y :: l ++ [a]).getLast? = some a := by
  show ((x :: y :: l) ++ [a]).getLast? = some a
  rw [List.getLast?_concat]

theorem range0_build (n : Nat) :
    0 :: 1 :: (List.range' 2 n ++ [2 + n]) = List.range' 0 (n + 3) := by
  have h1 : List.range' 0 2 ++ List.range' (0 + 2) n = List.range' 0 (n + 2) :=
    List.range'_append_1 0 2 n
  have h2 : List.range' 0 (n + 2) ++ List.range' (0 + (n + 2)) 1 =
      List.range' 0 (1 + (n + 2)) := List.range'_append_1 0 (n + 2) 1
  simp only [Nat.zero_add] at h1 h2
  have h3 : (1 : Nat) + (n + 2) = n + 3 := by omega
  rw [h3] at h2
  rw [← h2, ← h1]
  simp only [Nat.add_comm]
  rfl

/-- C5: the events emitted by `streamToEvents` carry sequence numbers
exactly `0, 1, 2, …` in emission order (no gaps, no repeats);
`response.created` is the first event and `response.completed` the last. -/
theorem streamToEvents_seq_and_endpoints (ctx : AdapterCtx)
    (chunks : List ChatCompletionChunk) :
    (streamToEvents ctx chunks).map seqNum =
      List.range (streamToEvents ctx chunks).length ∧
    (streamToEvents ctx chunks).head? =
      some (.response_created 0 (initialResponse ctx)) ∧
    ∃ s r, (streamToEvents ctx chunks).getLast? =
      some (.response_completed s r) := by
  obtain ⟨hm, hs⟩ := seqSpec_run ctx chunks { seq := 2 }
  unfold streamToEvents
  dsimp only
  refine ⟨?_, rfl, ?_⟩
  · simp only [List.map_cons, List.map_append, List.map_cons, List.map_nil,
      seqNum, hm, hs, List.length_cons, List.length_append, List.length_nil,
      List.range_eq_range']
    have := range0_build (runList (processChunk ctx) { seq := 2 } chunks).2.length
    simpa using this
  · exact ⟨_, _, getLast?_cons_cons_append _ _ _ _⟩

/-- C10: on an input stream with no chunks at all, `streamToEvents` emits
exactly `response.created` (seq 0), `response.in_progress` (seq 1) and
`response.completed` (seq 2) with status `completed` and empty output. -/
theorem streamToEvents_empty (ctx : AdapterCtx) :
    streamToEvents ctx [] =
      [.response_created 0 (initialResponse ctx),
       .response_in_progress 1 (initialResponse ctx),
       .response_completed 2
         { id := ctx.responseId, status := .completed, output := [],
           model := ctx.requestModel, created_at := ctx.created2 }] := rfl

/-! ## Event classifiers and payload extractors. -/

def isItemAdded : StreamEvent → Bool
  | .output_item_added _ _ _ => true
  | _ => false

def isAddedFC : StreamEvent → Bool
  | .output_item_added _ _ (.function_call _ _ _ _ _) => true
  | _ => false

def isAddedMsg : StreamEvent → Bool
  | .output_item_added _ _ (.message _ _ _ _) => true
  | _ => false

def addedIndex : StreamEvent → Nat
  | .output_item_added _ i _ => i
  | _ => 0

def isItemDoneAt (i : Nat) : StreamEvent → Bool
  | .output_item_done _ j _ => j == i
  | _ => false

/-- Any of the four `.done`-kind events. -/
def isDoneType : StreamEvent → Bool
  | .output_item_done _ _ _ => true
  | .output_text_done _ _ _ _ _ => true
  | .content_part_done _ _ _ _ _ => true
  | .function_call_arguments_done _ _ _ _ _ => true
  | _ => false

def isTextDone : StreamEvent → Bool
  | .output_text_done _ _ _ _ _ => true
  | _ => false

def textDoneStr : StreamEvent → String
  | .output_text_done _ _ _ _ t => t
  | _ => ""

def isCompletedEv : StreamEvent → Bool
  | .response_completed _ _ => true
  | _ => false

/-- Text-delta payload of an event (`""` for every other event). -/
def textDeltaStr : StreamEvent → String
  | .output_text_delta _ _ _ _ d => d
  | _ => ""

/-- Arguments-delta payload of an event (`""` for every other event). -/
def argDeltaStr : StreamEvent → String
  | .function_call_arguments_delta _ _ _ _ d => d
  | _ => ""

/-- Concatenation of `f` over an event list. -/
def strConcat (f : StreamEvent → String) : List StreamEvent → String
  | [] => ""
  | e :: es => f e ++ strConcat f es

theorem str_eq_empty_of_length (a : String) (h : a.length = 0) : a = "" := by
  cases a with
  | mk data =>
    simp [String.length] at h
    simp [h]

theorem str_append_eq_empty {a b : String} (h : a ++ b = "") :
    a = "" ∧ b = "" := by
  have hl := congrArg String.length h
  simp [String.length_append] at hl
  exact ⟨str_eq_empty_of_length a (by omega),
    str_eq_empty_of_length b (by omega)⟩

theorem strConcat_append (f : StreamEvent → String) (l1 l2 : List StreamEvent) :
    strConcat f (l1 ++ l2) = strConcat f l1 ++ strConcat f l2 := by
  induction l1 with
  | nil => simp [strConcat]
  | cons e es ih => simp [strConcat, ih, String.append_assoc]

/-! ## Reachable-state well-formedness and the per-step invariant. -/

/-- States reachable by the adapter: the function-call triple is populated
(with truthy strings) exactly when `functionCallEmitted`, and
`accumulatedArguments` is empty before the call opens. -/
def WF (st : AdapterState) : Prop :=
  (st.functionCallEmitted = false →
    st.fcId = none ∧ st.callId = none ∧ st.fcName = none ∧ st.accArgs = "") ∧
  (st.functionCallEmitted = true →
    optTruthy st.fcId = true ∧ optTruthy st.callId = true ∧
    optTruthy st.fcName = true)

/-- Behaviour of one processing step `r` from state `st`, covering the
flags, the added-item counts, the accumulated text/arguments, and the
absence of `response.completed` events. -/
structure StepSpec (st : AdapterState) (r : AdapterState × List StreamEvent) : Prop where
  fcMono : st.functionCallEmitted = true → r.1.functionCallEmitted = true
  msgMono : st.messageEmitted = true → r.1.messageEmitted = true
  fcCount0 : st.functionCallEmitted = true → r.2.countP isAddedFC = 0
  fcCount : st.functionCallEmitted = false →
    r.2.countP isAddedFC = (if r.1.functionCallEmitted then 1 else 0)
  msgCount0 : st.messageEmitted = true → r.2.countP isAddedMsg = 0
  msgCount : st.messageEmitted = false →
    r.2.countP isAddedMsg = (if r.1.messageEmitted then 1 else 0)
  fcIdsKeep : st.functionCallEmitted = true →
    r.1.fcId = st.fcId ∧ r.1.callId = st.callId ∧ r.1.fcName = st.fcName
  text : r.1.accText = st.accText ++ strConcat textDeltaStr r.2
  msgOpenIff : st.messageEmitted = false →
    (r.1.messageEmitted = true ↔ strConcat textDeltaStr r.2 ≠ "")
  wf : WF st → WF r.1
  args : WF st → r.1.accArgs =
    (if st.functionCallEmitted then st.accArgs else "") ++ strConcat argDeltaStr r.2
  noCompleted : r.2.countP isCompletedEv = 0

theorem stepSpec_comp {st st1 st2 : AdapterState} {e1 e2 : List StreamEvent}
    (h1 : StepSpec st (st1, e1)) (h2 : StepSpec st1 (st2, e2)) :
    StepSpec st (st2, e1 ++ e2) := by
  have hcnt := fun p => List.countP_append p e1 e2
  constructor
  case fcMono => intro h; exact h2.fcMono (h1.fcMono h)
  case msgMono => intro h; exact h2.msgMono (h1.msgMono h)
  case fcCount0 =>
    intro h
    simp only [hcnt, h1.fcCount0 h, h2.fcCount0 (h1.fcMono h)]
  case fcCount =>
    intro h
    simp only [hcnt]
    by_cases h1f : st1.functionCallEmitted = true
    · rw [h1.fcCount h, h2.fcCount0 h1f, h1f, h2.fcMono h1f]
      simp
    · rw [h1.fcCount h, h2.fcCount (Bool.not_eq_true _ ▸ h1f)]
      simp [Bool.not_eq_true _ ▸ h1f]
  case msgCount0 =>
    intro h
    simp only [hcnt, h1.msgCount0 h, h2.msgCount0 (h1.msgMono h)]
  case msgCount =>
    intro h
    simp only [hcnt]
    by_cases h1m : st1.messageEmitted = true
    · rw [h1.msgCount h, h2.msgCount0 h1m, h1m, h2.msgMono h1m]
      simp
    · rw [h1.msgCount h, h2.msgCount (Bool.not_eq_true _ ▸ h1m)]
      simp [Bool.not_eq_true _ ▸ h1m]
  case fcIdsKeep =>
    intro h
    obtain ⟨a2, b2, c2⟩ := h2.fcIdsKeep (h1.fcMono h)
    obtain ⟨a1, b1, c1⟩ := h1.fcIdsKeep h
    exact ⟨a2.trans a1, b2.trans b1, c2.trans c1⟩
  case text =>
    rw [strConcat_append, h2.text, h1.text, String.append_assoc]
  case msgOpenIff =>
    intro h
    rw [strConcat_append]
    by_cases h1m : st1.messageEmitted = true
    · have hD1 : strConcat textDeltaStr e1 ≠ "" := ((h1.msgOpenIff h).mp h1m)
      constructor
      · intro _ hc
        exact hD1 (str_append_eq_empty hc).1
      · intro _
        exact h2.msgMono h1m
    · have h1m' : st1.messageEmitted = false := Bool.not_eq_true _ ▸ h1m
      have hD1 : strConcat textDeltaStr e1 = "" := by
        by_contra hne
        exact h1m ((h1.msgOpenIff h).mpr hne)
      rw [hD1, String.empty_append]
      exact h2.msgOpenIff h1m'
  case wf => intro h; exact h2.wf (h1.wf h)
  case args =>
    intro h
    have hwf1 := h1.wf h
    rw [strConcat_append, h2.args hwf1, h1.args h]
    by_cases hf : st.functionCallEmitted = true
    · rw [hf, h1.fcMono hf]
      simp [String.append_assoc]
    · have hf' : st.functionCallEmitted = false := Bool.not_eq_true _ ▸ hf
      rw [hf']
      by_cases h1f : st1.functionCallEmitted = true
      · rw [h1f]
        simp [String.append_assoc]
      · have h1f' : st1.functionCallEmitted = false := Bool.not_eq_true _ ▸ h1f
        rw [h1f']
        have harg := h1.args h
        rw [hf'] at harg
        simp only [Bool.false_eq_true, if_false, String.empty_append] at harg
        have hD1 : strConcat argDeltaStr e1 = "" := by
          rw [← harg]
          exact (hwf1.1 h1f').2.2.2
        simp [hD1, String.empty_append]
  case noCompleted =>
    simp only [hcnt, h1.noCompleted, h2.noCompleted]

theorem optTruthy_some {s : String} : optTruthy (some s) = true ↔ s ≠ "" := by
  simp [optTruthy, bne_iff_ne]

theorem optTruthy_getD {o : Option String} (h : optTruthy o = true) :
    o.getD "" ≠ "" := by
  cases o with
  | none => simp [optTruthy] at h
  | some s =>
    simp only [Option.getD_some]
    exact optTruthy_some.mp h

/-- The identity step satisfies the invariant. -/
theorem stepSpec_nil (st : AdapterState) : StepSpec st (st, []) := by
  constructor
  case fcMono => exact id
  case msgMono => exact id
  case fcCount0 => intro _; rfl
  case fcCount => intro h; simp [h]
  case msgCount0 => intro _; rfl
  case msgCount => intro h; simp [h]
  case fcIdsKeep => intro _; exact ⟨rfl, rfl, rfl⟩
  case text => simp [strConcat]
  case msgOpenIff => intro h; simp [h, strConcat]
  case wf => exact id
  case args =>
    intro hwf
    by_cases hf : st.functionCallEmitted = true
    · simp [hf, strConcat]
    · have hf' : st.functionCallEmitted = false := Bool.not_eq_true _ ▸ hf
      simp [hf', strConcat, (hwf.1 hf').2.2.2]
  case noCompleted => rfl

theorem stepSpec_pcomp {f g : AdapterState → AdapterState × List StreamEvent}
    {st : AdapterState} (h1 : StepSpec st (f st))
    (h2 : StepSpec (f st).1 (g (f st).1)) : StepSpec st (pcomp f g st) := by
  simp only [pcomp]
  exact stepSpec_comp h1 h2

theorem stepSpec_runList (f : AdapterState → α → AdapterState × List StreamEvent)
    (h : ∀ st a, StepSpec st (f st a)) :
    ∀ (l : List α) (st : AdapterState), StepSpec st (runList f st l) := by
  intro l
  induction l with
  | nil => intro st; exact stepSpec_nil st
  | cons a as ih =>
    intro st
    simp only [runList]
    exact stepSpec_comp (h st a) (ih (f st a).1)

theorem stepSpec_fcOpenStep (ctx : AdapterCtx) (hfc : ctx.fcFreshId ≠ "")
    (hcall : ctx.callFreshId ≠ "") (tcd : ToolCallDelta) (st : AdapterState) :
    StepSpec st (fcOpenStep ctx tcd st) := by
  unfold fcOpenStep
  split
  case isFalse => exact stepSpec_nil st
  case isTrue hguard =>
    simp only [Bool.and_eq_true, Bool.not_eq_true'] at hguard
    obtain ⟨hname, hfcF⟩ := hguard
    have hcid : capturedCallId ctx tcd ≠ "" := by
      unfold capturedCallId
      split
      case isTrue ht => exact optTruthy_getD ht
      case isFalse => exact hcall
    constructor
    case fcMono => intro _; rfl
    case msgMono => exact id
    case fcCount0 => intro h; simp [h] at hfcF
    case fcCount =>
      intro _
      simp [List.countP_cons, List.countP_nil, isAddedFC]
    case msgCount0 =>
      intro _
      simp [List.countP_cons, List.countP_nil, isAddedMsg]
    case msgCount =>
      intro h
      simp [h, List.countP_cons, List.countP_nil, isAddedMsg]
    case fcIdsKeep => intro h; simp [h] at hfcF
    case text => simp [strConcat, textDeltaStr]
    case msgOpenIff => intro h; simp [h, strConcat, textDeltaStr]
    case wf =>
      intro _
      constructor
      · intro hco; simp at hco
      · intro _
        exact ⟨optTruthy_some.mpr hfc, optTruthy_some.mpr hcid,
          optTruthy_some.mpr (optTruthy_getD hname)⟩
    case args =>
      intro _
      simp [hfcF, strConcat, argDeltaStr]
    case noCompleted =>
      simp [List.countP_cons, List.countP_nil, isCompletedEv]

theorem stepSpec_fcArgsStep (ctx : AdapterCtx) (tcd : ToolCallDelta)
    (st : AdapterState) : StepSpec st (fcArgsStep ctx tcd st) := by
  unfold fcArgsStep
  split
  case isFalse => exact stepSpec_nil st
  case isTrue hguard =>
    simp only [Bool.and_eq_true] at hguard
    obtain ⟨⟨hargs, hid⟩, hcid⟩ := hguard
    constructor
    case fcMono => exact id
    case msgMono => exact id
    case fcCount0 =>
      intro _
      simp [List.countP_cons, List.countP_nil, isAddedFC]
    case fcCount =>
      intro h
      simp [h, List.countP_cons, List.countP_nil, isAddedFC]
    case msgCount0 =>
      intro _
      simp [List.countP_cons, List.countP_nil, isAddedMsg]
    case msgCount =>
      intro h
      simp [h, List.countP_cons, List.countP_nil, isAddedMsg]
    case fcIdsKeep => intro _; exact ⟨rfl, rfl, rfl⟩
    case text => simp [strConcat, textDeltaStr]
    case msgOpenIff => intro h; simp [h, strConcat, textDeltaStr]
    case wf =>
      intro hwf
      constructor
      · intro hcf
        rw [(hwf.1 hcf).1] at hid
        simp [optTruthy] at hid
      · intro hcf
        exact hwf.2 hcf
    case args =>
      intro hwf
      by_cases hf : st.functionCallEmitted = true
      · simp [hf, strConcat, argDeltaStr]
      · have hf' : st.functionCallEmitted = false := Bool.not_eq_true _ ▸ hf
        rw [(hwf.1 hf').1] at hid
        simp [optTruthy] at hid
    case noCompleted =>
      simp [List.countP_cons, List.countP_nil, isCompletedEv]

theorem stepSpec_processToolCallDelta (ctx : AdapterCtx)
    (hfc : ctx.fcFreshId ≠ "") (hcall : ctx.callFreshId ≠ "")
    (st : AdapterState) (tcd : ToolCallDelta) :
    StepSpec st (processToolCallDelta ctx st tcd) :=
  stepSpec_pcomp (stepSpec_fcOpenStep ctx hfc hcall tcd st)
    (stepSpec_fcArgsStep ctx tcd _)

theorem stepSpec_toolCallsStep (ctx : AdapterCtx) (hfc : ctx.fcFreshId ≠ "")
    (hcall : ctx.callFreshId ≠ "") (c : StreamChoice) (st : AdapterState) :
    StepSpec st (toolCallsStep ctx c st) := by
  unfold toolCallsStep
  split
  · exact stepSpec_runList _ (stepSpec_processToolCallDelta ctx hfc hcall) _ st
  · exact stepSpec_nil st

theorem stepSpec_contentStep (ctx : AdapterCtx) (c : StreamChoice)
    (st : AdapterState) : StepSpec st (contentStep ctx c st) := by
  unfold contentStep
  dsimp only
  split
  case isFalse => exact stepSpec_nil st
  case isTrue hct =>
    have hcs : c.delta.content.getD "" ≠ "" := optTruthy_getD hct
    split
    case isTrue hmsg =>
      have hmsgF : st.messageEmitted = false := by
        simpa using hmsg
      constructor
      case fcMono => exact id
      case msgMono => intro _; rfl
      case fcCount0 =>
        intro _
        simp [List.countP_cons, List.countP_nil, isAddedFC]
      case fcCount =>
        intro h
        simp [h, List.countP_cons, List.countP_nil, isAddedFC]
      case msgCount0 => intro h; rw [h] at hmsgF; cases hmsgF
      case msgCount =>
        intro _
        simp [List.countP_cons, List.countP_nil, isAddedMsg]
      case fcIdsKeep => intro _; exact ⟨rfl, rfl, rfl⟩
      case text => simp [strConcat, textDeltaStr]
      case msgOpenIff =>
        intro _
        simp [strConcat, textDeltaStr, hcs]
      case wf => exact id
      case args =>
        intro hwf
        by_cases hf : st.functionCallEmitted = true
        · simp [hf, strConcat, argDeltaStr]
        · have hf' : st.functionCallEmitted = false := Bool.not_eq_true _ ▸ hf
          simp [hf', strConcat, argDeltaStr, (hwf.1 hf').2.2.2]
      case noCompleted =>
        simp [List.countP_cons, List.countP_nil, isCompletedEv]
    case isFalse hmsg =>
      have hmsgT : st.messageEmitted = true := by
        simpa using hmsg
      constructor
      case fcMono => exact id
      case msgMono => exact id
      case fcCount0 =>
        intro _
        simp [List.countP_cons, List.countP_nil, isAddedFC]
      case fcCount =>
        intro h
        simp [h, List.countP_cons, List.countP_nil, isAddedFC]
      case msgCount0 =>
        intro _
        simp [List.countP_cons, List.countP_nil, isAddedMsg]
      case msgCount => intro h; rw [h] at hmsgT; cases hmsgT
      case fcIdsKeep => intro _; exact ⟨rfl, rfl, rfl⟩
      case text => simp [strConcat, textDeltaStr]
      case msgOpenIff => intro h; rw [h] at hmsgT; cases hmsgT
      case wf => exact id
      case args =>
        intro hwf
        by_cases hf : st.functionCallEmitted = true
        · simp [hf, strConcat, argDeltaStr]
        · have hf' : st.functionCallEmitted = false := Bool.not_eq_true _ ▸ hf
          simp [hf', strConcat, argDeltaStr, (hwf.1 hf').2.2.2]
      case noCompleted =>
        simp [List.countP_cons, List.countP_nil, isCompletedEv]

theorem stepSpec_finishStep (ctx : AdapterCtx) (c : StreamChoice)
    (st : AdapterState) : StepSpec st (finishStep ctx c st) := by
  unfold finishStep
  dsimp only
  split
  case isFalse => exact stepSpec_nil st
  case isTrue =>
    split <;> dsimp only <;> split <;>
    · constructor
      case fcMono => exact id
      case msgMono => exact id
      case fcCount0 =>
        intro _
        simp [List.countP_cons, List.countP_nil, isAddedFC]
      case fcCount =>
        intro h
        simp [h, List.countP_cons, List.countP_nil, isAddedFC]
      case msgCount0 =>
        intro _
        simp [List.countP_cons, List.countP_nil, isAddedMsg]
      case msgCount =>
        intro h
        simp [h, List.countP_cons, List.countP_nil, isAddedMsg]
      case fcIdsKeep => intro _; exact ⟨rfl, rfl, rfl⟩
      case text => simp [strConcat, textDeltaStr]
      case msgOpenIff =>
        intro h
        simp_all [strConcat, textDeltaStr]
      case wf => exact id
      case args =>
        intro hwf
        by_cases hf : st.functionCallEmitted = true
        · simp [hf, strConcat, argDeltaStr]
        · have hf' : st.functionCallEmitted = false := Bool.not_eq_true _ ▸ hf
          simp [hf', strConcat, argDeltaStr, (hwf.1 hf').2.2.2]
      case noCompleted =>
        simp [List.countP_cons, List.countP_nil, isCompletedEv]

theorem stepSpec_processChoice (ctx : AdapterCtx) (hfc : ctx.fcFreshId ≠ "")
    (hcall : ctx.callFreshId ≠ "") (st : AdapterState) (c : StreamChoice) :
    StepSpec st (processChoice ctx st c) := by
  unfold processChoice
  exact stepSpec_pcomp (stepSpec_toolCallsStep ctx hfc hcall c st)
    (stepSpec_pcomp (stepSpec_contentStep ctx c _) (stepSpec_finishStep ctx c _))

theorem stepSpec_processChunk (ctx : AdapterCtx) (hfc : ctx.fcFreshId ≠ "")
    (hcall : ctx.callFreshId ≠ "") (st : AdapterState)
    (chunk : ChatCompletionChunk) : StepSpec st (processChunk ctx st chunk) :=
  stepSpec_runList _ (fun st c => stepSpec_processChoice ctx hfc hcall st c) _ st

theorem stepSpec_run (ctx : AdapterCtx) (hfc : ctx.fcFreshId ≠ "")
    (hcall : ctx.callFreshId ≠ "") (chunks : List ChatCompletionChunk)
    (st : AdapterState) : StepSpec st (runList (processChunk ctx) st chunks) :=
  stepSpec_runList _ (fun st k => stepSpec_processChunk ctx hfc hcall st k) chunks st

def completedPayload : StreamEvent → Option Response
  | .response_completed _ r => some r
  | _ => none

/-- Payloads of the `response.completed` events of a stream. -/
def completedResponses (evs : List StreamEvent) : List Response :=
  evs.filterMap completedPayload

theorem completedPayload_eq_none {e : StreamEvent}
    (h : isCompletedEv e = false) : completedPayload e = none := by
  cases e <;> simp_all [isCompletedEv, completedPayload]

theorem WF_init : WF ({ seq := 2 } : AdapterState) :=
  ⟨fun _ => ⟨rfl, rfl, rfl, rfl⟩, fun h => nomatch h⟩

/-- C9: on any input stream the adapter opens at most one function-call item
and at most one message item; the final `response.completed` output has at
most two items, and the completed function call's `arguments` is exactly the
concatenation of the emitted argument deltas. -/
theorem streamToEvents_single_items (ctx : AdapterCtx)
    (hfc : ctx.fcFreshId ≠ "") (hcall : ctx.callFreshId ≠ "")
    (chunks : List ChatCompletionChunk) :
    (streamToEvents ctx chunks).countP isAddedFC ≤ 1 ∧
    (streamToEvents ctx chunks).countP isAddedMsg ≤ 1 ∧
    ∀ r ∈ completedResponses (streamToEvents ctx chunks),
      r.output.length ≤ 2 ∧
      ∀ id nm cid args stat,
        OutputItem.function_call id nm cid args stat ∈ r.output →
        args = strConcat argDeltaStr (streamToEvents ctx chunks) := by
  have S := stepSpec_run ctx hfc hcall chunks { seq := 2 }
  have hfcc := S.fcCount rfl
  have hmsgc := S.msgCount rfl
  have hargs := S.args WF_init
  simp only [Bool.false_eq_true, if_false, String.empty_append] at hargs
  have hbody : ∀ e ∈ (runList (processChunk ctx) { seq := 2 } chunks).2,
      completedPayload e = none := by
    intro e he
    have h0 := List.countP_eq_zero.mp S.noCompleted e he
    exact completedPayload_eq_none (Bool.not_eq_true _ ▸ h0)
  have hargsEvs : strConcat argDeltaStr (streamToEvents ctx chunks) =
      strConcat argDeltaStr (runList (processChunk ctx) { seq := 2 } chunks).2 := by
    unfold streamToEvents
    dsimp only
    simp [strConcat, strConcat_append, argDeltaStr, String.append_empty]
  refine ⟨?_, ?_, ?_⟩
  · unfold streamToEvents
    dsimp only
    simp only [List.countP_cons, List.countP_append, List.countP_nil]
    rw [hfcc]
    split <;> simp [isAddedFC]
  · unfold streamToEvents
    dsimp only
    simp only [List.countP_cons, List.countP_append, List.countP_nil]
    rw [hmsgc]
    split <;> simp [isAddedMsg]
  · intro r hr
    have hcr : completedResponses (streamToEvents ctx chunks) =
        [{ id := ctx.responseId, status := .completed,
           output := finalOutput ctx (runList (processChunk ctx) { seq := 2 } chunks).1,
           model := ctx.requestModel, created_at := ctx.created2 }] := by
      unfold completedResponses streamToEvents
      dsimp only
      simp [completedPayload, List.filterMap_append,
        List.filterMap_eq_nil_iff.mpr hbody]
    rw [hcr] at hr
    simp only [List.mem_singleton] at hr
    subst hr
    constructor
    · show (finalOutput ctx _).length ≤ 2
      unfold finalOutput
      split <;> split <;> simp
    · intro id nm cid args stat hmem
      show args = strConcat argDeltaStr (streamToEvents ctx chunks)
      rw [hargsEvs]
      unfold finalOutput at hmem
      rcases List.mem_append.mp hmem with hm | hm
      · split at hm
        · simp only [List.mem_singleton] at hm
          cases hm
          exact hargs
        · simp at hm
      · split at hm
        · simp only [List.mem_singleton] at hm
          cases hm
        · simp at hm

/-! ## Invariants of the no-finish part of a stream. -/

/-- Behaviour of steps that never close items: no `.done` events, the
output index is unchanged, and added items carry the current index. -/
structure PreSpec (st : AdapterState) (r : AdapterState × List StreamEvent) : Prop where
  noDone : ∀ e ∈ r.2, isDoneType e = false
  outIdx : r.1.outputIndex = st.outputIndex
  addedAt : ∀ e ∈ r.2, isItemAdded e = true → addedIndex e = st.outputIndex

theorem preSpec_nil (st : AdapterState) : PreSpec st (st, []) := by
  constructor
  · intro e he; cases he
  · rfl
  · intro e he _; cases he

theorem preSpec_comp {st st1 st2 : AdapterState} {e1 e2 : List StreamEvent}
    (h1 : PreSpec st (st1, e1)) (h2 : PreSpec st1 (st2, e2)) :
    PreSpec st (st2, e1 ++ e2) := by
  refine ⟨?_, ?_, ?_⟩
  · intro e he
    rcases List.mem_append.mp he with h | h
    · exact h1.noDone e h
    · exact h2.noDone e h
  · exact h2.outIdx.trans h1.outIdx
  · intro e he ha
    rcases List.mem_append.mp he with h | h
    · exact h1.addedAt e h ha
    · exact (h2.addedAt e h ha).trans h1.outIdx

theorem preSpec_pcomp {f g : AdapterState → AdapterState × List StreamEvent}
    {st : AdapterState} (h1 : PreSpec st (f st))
    (h2 : PreSpec (f st).1 (g (f st).1)) : PreSpec st (pcomp f g st) := by
  simp only [pcomp]
  exact preSpec_comp h1 h2

theorem preSpec_runList (f : AdapterState → α → AdapterState × List StreamEvent)
    (l : List α) (h : ∀ st, ∀ a ∈ l, PreSpec st (f st a)) :
    ∀ st : AdapterState, PreSpec st (runList f st l) := by
  induction l with
  | nil => intro st; exact preSpec_nil st
  | cons a as ih =>
    intro st
    simp only [runList]
    exact preSpec_comp (h st a (List.mem_cons_self a as))
      (ih (fun st b hb => h st b (List.mem_cons_of_mem a hb)) (f st a).1)

theorem preSpec_fcOpenStep (ctx : AdapterCtx) (tcd : ToolCallDelta)
    (st : AdapterState) : PreSpec st (fcOpenStep ctx tcd st) := by
  unfold fcOpenStep
  split
  · refine ⟨?_, rfl, ?_⟩ <;> intro e he <;>
      simp only [List.mem_singleton] at he <;> subst he <;>
      simp [isDoneType, isItemAdded, addedIndex]
  · exact preSpec_nil st

theorem preSpec_fcArgsStep (ctx : AdapterCtx) (tcd : ToolCallDelta)
    (st : AdapterState) : PreSpec st (fcArgsStep ctx tcd st) := by
  unfold fcArgsStep
  split
  · refine ⟨?_, rfl, ?_⟩ <;> intro e he <;>
      simp only [List.mem_singleton] at he <;> subst he <;>
      simp [isDoneType, isItemAdded, addedIndex]
  · exact preSpec_nil st

theorem preSpec_toolCallsStep (ctx : AdapterCtx) (c : StreamChoice)
    (st : AdapterState) : PreSpec st (toolCallsStep ctx c st) := by
  unfold toolCallsStep
  split
  · refine preSpec_runList _ _ (fun st a _ => ?_) st
    exact preSpec_pcomp (preSpec_fcOpenStep ctx a st) (preSpec_fcArgsStep ctx a _)
  · exact preSpec_nil st

theorem preSpec_contentStep (ctx : AdapterCtx) (c : StreamChoice)
    (st : AdapterState) : PreSpec st (contentStep ctx c st) := by
  unfold contentStep
  dsimp only
  split
  case isFalse => exact preSpec_nil st
  case isTrue =>
    split <;>
    · refine ⟨?_, rfl, ?_⟩ <;> intro e he <;>
        simp only [List.mem_append, List.mem_cons, List.mem_singleton,
          List.not_mem_nil, or_false, false_or] at he <;>
        rcases he with (rfl | rfl) | rfl <;>
          simp [isDoneType, isItemAdded, addedIndex]

theorem preSpec_finishStep_none (ctx : AdapterCtx) (c : StreamChoice)
    (hnone : c.finish_reason = none) (st : AdapterState) :
    PreSpec st (finishStep ctx c st) := by
  unfold finishStep
  rw [hnone]
  exact preSpec_nil st

theorem preSpec_processChoice (ctx : AdapterCtx) (c : StreamChoice)
    (hnone : c.finish_reason = none) (st : AdapterState) :
    PreSpec st (processChoice ctx st c) := by
  unfold processChoice
  exact preSpec_pcomp (preSpec_toolCallsStep ctx c st)
    (preSpec_pcomp (preSpec_contentStep ctx c _) (preSpec_finishStep_none ctx c hnone _))

theorem preSpec_runChoices (ctx : AdapterCtx) (cs : List StreamChoice)
    (hcs : ∀ c ∈ cs, c.finish_reason = none) (st : AdapterState) :
    PreSpec st (runList (processChoice ctx) st cs) :=
  preSpec_runList _ cs (fun st c hc => preSpec_processChoice ctx c (hcs c hc) st) st

theorem isItemDoneAt_isDoneType {i : Nat} {e : StreamEvent}
    (h : isItemDoneAt i e = true) : isDoneType e = true := by
  cases e <;> simp_all [isItemDoneAt, isDoneType]

theorem isItemAdded_or {e : StreamEvent} (h : isItemAdded e = true) :
    isAddedFC e = true ∨ isAddedMsg e = true := by
  cases e with
  | output_item_added n i item =>
    cases item <;> simp [isAddedFC, isAddedMsg]
  | _ => simp_all [isItemAdded]

/-- Explicit behaviour of `finishStep` on a finishing choice from a
well-formed state: no added items; exactly one `output_item.done` at the
pre-finish `outputIndex` when anything is open; the message close (if any)
is the single `output_text.done` and carries the accumulated text. -/
theorem finishStep_spec (ctx : AdapterCtx) (c : StreamChoice)
    (st : AdapterState) (hfin : c.finish_reason.isSome = true) (hwf : WF st) :
    (∀ e ∈ (finishStep ctx c st).2, isItemAdded e = false) ∧
    ((finishStep ctx c st).2.countP (isItemDoneAt st.outputIndex) =
      if st.functionCallEmitted || st.messageEmitted then 1 else 0) ∧
    (((finishStep ctx c st).2.filter isTextDone).map textDoneStr =
      if st.messageEmitted then [st.accText] else []) := by
  unfold finishStep
  dsimp only
  rw [if_pos hfin]
  by_cases hf : st.functionCallEmitted = true
  · obtain ⟨h1, h2, h3⟩ := hwf.2 hf
    have hcond : (optTruthy st.fcId && optTruthy st.callId &&
        optTruthy st.fcName) = true := by rw [h1, h2, h3]; rfl
    rw [if_pos hcond]
    dsimp only
    by_cases hm : st.messageEmitted = true
    · rw [if_pos hm]
      refine ⟨?_, ?_, ?_⟩
      · intro e he
        simp only [List.mem_append, List.mem_cons, List.mem_singleton,
          List.not_mem_nil, or_false] at he
        rcases he with (rfl | rfl) | rfl | rfl | rfl <;> rfl
      · simp [List.countP_cons, List.countP_nil, List.countP_append,
          isItemDoneAt, Nat.succ_ne_self, hf]
      · simp [List.filter_cons, List.filter_append, isTextDone, textDoneStr, hm]
    · have hm' : st.messageEmitted = false := Bool.not_eq_true _ ▸ hm
      simp only [hm', Bool.false_eq_true, if_false]
      refine ⟨?_, ?_, ?_⟩
      · intro e he
        simp only [List.mem_cons, List.mem_singleton, List.not_mem_nil,
          or_false] at he
        rcases he with rfl | rfl <;> rfl
      · simp [List.countP_cons, List.countP_nil, isItemDoneAt, hf]
      · simp [List.filter_cons, isTextDone, hm']
  · have hf' : st.functionCallEmitted = false := Bool.not_eq_true _ ▸ hf
    obtain ⟨h1, h2, h3, h4⟩ := hwf.1 hf'
    rw [h1]
    simp only [optTruthy, Bool.false_and, Bool.false_eq_true, if_false]
    by_cases hm : st.messageEmitted = true
    · rw [if_pos hm]
      dsimp only
      simp only [List.nil_append]
      refine ⟨?_, ?_, ?_⟩
      · intro e he
        simp only [List.mem_cons, List.mem_singleton, List.not_mem_nil,
          or_false] at he
        rcases he with rfl | rfl | rfl <;> rfl
      · simp [List.countP_cons, List.countP_nil, isItemDoneAt, hf', hm]
      · simp [List.filter_cons, isTextDone, textDoneStr, hm]
    · have hm' : st.messageEmitted = false := Bool.not_eq_true _ ▸ hm
      simp only [hm', Bool.false_eq_true, if_false]
      refine ⟨?_, ?_, ?_⟩
      · intro e he; cases he
      · simp [hf', hm']
      · simp [hm']

/-- `runList` over an appended list runs the two parts in sequence. -/
theorem runList_append (f : AdapterState → α → AdapterState × List StreamEvent)
    (l1 l2 : List α) (st : AdapterState) :
    runList f st (l1 ++ l2) =
      ((runList f (runList f st l1).1 l2).1,
       (runList f st l1).2 ++ (runList f (runList f st l1).1 l2).2) := by
  induction l1 generalizing st with
  | nil => simp [runList]
  | cons a as ih =>
    simp only [List.cons_append, runList, List.append_eq, ih (f st a).1,
      List.append_assoc]

/-- Processing chunks is processing the concatenation of their choices. -/
theorem run_flatten (ctx : AdapterCtx) (chunks : List ChatCompletionChunk)
    (st : AdapterState) :
    runList (processChunk ctx) st chunks =
      runList (processChoice ctx) st (chunks.flatMap (·.choices)) := by
  induction chunks generalizing st with
  | nil => rfl
  | cons k ks ih =>
    simp only [List.flatMap_cons, runList, runList_append, processChunk, ih]

/-! ## Relating emitted text deltas to the input chunks. -/

/-- The content delta a choice contributes (`""` for `null`/absent). -/
def choiceText (c : StreamChoice) : String := c.delta.content.getD ""

/-- Concatenation of all content deltas of a choice list. -/
def choicesText : List StreamChoice → String
  | [] => ""
  | c :: cs => choiceText c ++ choicesText cs

theorem textConcat_runList_zero
    (g : AdapterState → α → AdapterState × List StreamEvent)
    (h : ∀ st a, strConcat textDeltaStr (g st a).2 = "") :
    ∀ (l : List α) (st : AdapterState),
      strConcat textDeltaStr (runList g st l).2 = "" := by
  intro l
  induction l with
  | nil => intro st; rfl
  | cons a as ih =>
    intro st
    simp only [runList, strConcat_append, h st a, ih (g st a).1]
    rfl

theorem textConcat_processToolCallDelta (ctx : AdapterCtx)
    (st : AdapterState) (tcd : ToolCallDelta) :
    strConcat textDeltaStr (processToolCallDelta ctx st tcd).2 = "" := by
  unfold processToolCallDelta pcomp fcOpenStep fcArgsStep
  dsimp only
  split <;> split <;> simp [strConcat, textDeltaStr]

theorem textConcat_toolCallsStep (ctx : AdapterCtx) (c : StreamChoice)
    (st : AdapterState) :
    strConcat textDeltaStr (toolCallsStep ctx c st).2 = "" := by
  unfold toolCallsStep
  split
  · exact textConcat_runList_zero _ (textConcat_processToolCallDelta ctx) _ st
  · rfl

theorem textConcat_contentStep (ctx : AdapterCtx) (c : StreamChoice)
    (st : AdapterState) :
    strConcat textDeltaStr (contentStep ctx c st).2 = choiceText c := by
  unfold contentStep choiceText
  dsimp only
  split
  case isTrue hct =>
    split <;> simp [strConcat, textDeltaStr]
  case isFalse hct =>
    cases hc : c.delta.content with
    | none => rfl
    | some s =>
      rw [hc] at hct
      simp only [optTruthy] at hct
      simp only [Option.getD_some]
      have : s = "" := by
        by_contra hne
        exact hct (by simpa [bne_iff_ne] using hne)
      rw [this]
      rfl

theorem textConcat_finishStep (ctx : AdapterCtx) (c : StreamChoice)
    (st : AdapterState) :
    strConcat textDeltaStr (finishStep ctx c st).2 = "" := by
  unfold finishStep
  dsimp only
  split <;> [skip; rfl]
  split <;> dsimp only <;> split <;> simp [strConcat, textDeltaStr]

theorem textConcat_processChoice (ctx : AdapterCtx) (st : AdapterState)
    (c : StreamChoice) :
    strConcat textDeltaStr (processChoice ctx st c).2 = choiceText c := by
  unfold processChoice pcomp
  dsimp only
  simp only [strConcat_append, textConcat_toolCallsStep,
    textConcat_contentStep, textConcat_finishStep,
    String.empty_append, String.append_empty]

theorem textConcat_runChoices (ctx : AdapterCtx) (cs : List StreamChoice) :
    ∀ st : AdapterState,
      strConcat textDeltaStr (runList (processChoice ctx) st cs).2 =
        choicesText cs := by
  induction cs with
  | nil => intro st; rfl
  | cons c cs ih =>
    intro st
    simp only [runList, strConcat_append, textConcat_processChoice,
      ih, choicesText]

/-! ## Positional counting helpers. -/

/-- If a list splits as `A ++ B` where `q` never holds on `A` and `p` never
holds on `B`, then behind any `p`-element the `q`-count is the `q`-count of
`B`. -/
theorem countP_post_split (p q : α → Bool) :
    ∀ (A B pre post : List α) (e : α),
      A ++ B = pre ++ e :: post → p e = true →
      (∀ a ∈ A, q a = false) → (∀ b ∈ B, p b = false) →
      post.countP q = B.countP q := by
  intro A
  induction A with
  | nil =>
    intro B pre post e heq hp hA hB
    have heB : e ∈ B := by
      rw [List.nil_append] at heq
      rw [heq]
      exact List.mem_append_right pre (List.mem_cons_self e post)
    rw [hB e heB] at hp
    cases hp
  | cons a A ih =>
    intro B pre post e heq hp hA hB
    cases pre with
    | nil =>
      simp only [List.cons_append, List.nil_append, List.cons.injEq] at heq
      obtain ⟨rfl, hrest⟩ := heq
      rw [← hrest, List.countP_append]
      rw [List.countP_eq_zero.mpr (fun x hx => by
        simp [hA x (List.mem_cons_of_mem a hx)])]
      omega
    | cons p0 pre' =>
      simp only [List.cons_append, List.cons.injEq] at heq
      obtain ⟨rfl, hrest⟩ := heq
      exact ih B pre' post e hrest hp
        (fun x hx => hA x (List.mem_cons_of_mem a hx)) hB

/-- In the same situation the `p`-element lies in `A`. -/
theorem split_mem_left (p : α → Bool) (A B pre post : List α) (e : α)
    (heq : A ++ B = pre ++ e :: post) (hp : p e = true)
    (hB : ∀ b ∈ B, p b = false) : e ∈ A := by
  have he : e ∈ A ++ B := by
    rw [heq]
    exact List.mem_append_right pre (List.mem_cons_self e post)
  rcases List.mem_append.mp he with h | h
  · exact h
  · rw [hB e h] at hp
    cases hp

/-! ## Decomposition of a run whose flattened choices are `cs ++ [fin]`. -/

/-- State after processing the non-finishing prefix `cs`. -/
def stAfterCs (ctx : AdapterCtx) (cs : List StreamChoice) : AdapterState :=
  (runList (processChoice ctx) { seq := 2 } cs).1

/-- State just before the finish handling of the last choice. -/
def stPreFin (ctx : AdapterCtx) (cs : List StreamChoice)
    (fin : StreamChoice) : AdapterState :=
  (contentStep ctx fin (toolCallsStep ctx fin (stAfterCs ctx cs)).1).1

/-- All events emitted before the finish handling of the last choice. -/
def evsPreFin (ctx : AdapterCtx) (cs : List StreamChoice)
    (fin : StreamChoice) : List StreamEvent :=
  StreamEvent.response_created 0 (initialResponse ctx) ::
  StreamEvent.response_in_progress 1 (initialResponse ctx) ::
  ((runList (processChoice ctx) { seq := 2 } cs).2 ++
   ((toolCallsStep ctx fin (stAfterCs ctx cs)).2 ++
    (contentStep ctx fin (toolCallsStep ctx fin (stAfterCs ctx cs)).1).2))

def stFin (ctx : AdapterCtx) (cs : List StreamChoice)
    (fin : StreamChoice) : AdapterState :=
  (finishStep ctx fin (stPreFin ctx cs fin)).1

def evsFin (ctx : AdapterCtx) (cs : List StreamChoice)
    (fin : StreamChoice) : List StreamEvent :=
  (finishStep ctx fin (stPreFin ctx cs fin)).2

theorem streamToEvents_decomp (ctx : AdapterCtx)
    (chunks : List ChatCompletionChunk) (cs : List StreamChoice)
    (fin : StreamChoice)
    (hflat : chunks.flatMap (·.choices) = cs ++ [fin]) :
    streamToEvents ctx chunks =
      evsPreFin ctx cs fin ++
      (evsFin ctx cs fin ++
        [StreamEvent.response_completed (stFin ctx cs fin).seq
          { id := ctx.responseId, status := .completed,
            output := finalOutput ctx (stFin ctx cs fin),
            model := ctx.requestModel, created_at := ctx.created2 }]) := by
  have hsingle : runList (processChoice ctx) (stAfterCs ctx cs) [fin] =
      (stFin ctx cs fin,
        (toolCallsStep ctx fin (stAfterCs ctx cs)).2 ++
        ((contentStep ctx fin (toolCallsStep ctx fin (stAfterCs ctx cs)).1).2 ++
         evsFin ctx cs fin)) := by
    show (((processChoice ctx (stAfterCs ctx cs) fin).1,
      (processChoice ctx (stAfterCs ctx cs) fin).2 ++ [])) = _
    rw [List.append_nil]
    unfold processChoice pcomp stFin evsFin stPreFin
    rfl
  unfold streamToEvents
  rw [run_flatten, hflat, runList_append]
  dsimp only
  have hfold : (runList (processChoice ctx) ({ seq := 2 } : AdapterState) cs).1 =
      stAfterCs ctx cs := rfl
  rw [hfold, hsingle]
  unfold evsPreFin
  simp only [List.cons_append, List.append_assoc]

/-- Events emitted from the initial state up to (excluding) the finish
handling of the last choice. -/
def bodyEvs (ctx : AdapterCtx) (cs : List StreamChoice)
    (fin : StreamChoice) : List StreamEvent :=
  (runList (processChoice ctx) { seq := 2 } cs).2 ++
  ((toolCallsStep ctx fin (stAfterCs ctx cs)).2 ++
   (contentStep ctx fin (toolCallsStep ctx fin (stAfterCs ctx cs)).1).2)

theorem stepSpec_preFin (ctx : AdapterCtx) (hfc : ctx.fcFreshId ≠ "")
    (hcall : ctx.callFreshId ≠ "") (cs : List StreamChoice)
    (fin : StreamChoice) :
    StepSpec { seq := 2 } (stPreFin ctx cs fin, bodyEvs ctx cs fin) := by
  exact stepSpec_comp
    (stepSpec_runList _ (fun st c => stepSpec_processChoice ctx hfc hcall st c) cs _)
    (stepSpec_comp (stepSpec_toolCallsStep ctx hfc hcall fin _)
      (stepSpec_contentStep ctx fin _))

theorem preSpec_preFin (ctx : AdapterCtx) (cs : List StreamChoice)
    (fin : StreamChoice) (hcs : ∀ c ∈ cs, c.finish_reason = none) :
    PreSpec { seq := 2 } (stPreFin ctx cs fin, bodyEvs ctx cs fin) :=
  preSpec_comp (preSpec_runChoices ctx cs hcs _)
    (preSpec_comp (preSpec_toolCallsStep ctx fin _)
      (preSpec_contentStep ctx fin _))

/-- C2 (amended): for a stream whose flattened choices consist of
non-finishing choices followed by a single finishing choice, every
`response.output_item.added` event is followed by exactly one
`response.output_item.done` carrying the same `output_index`, all before
the final `response.completed`. -/
theorem streamToEvents_added_done_amended (ctx : AdapterCtx)
    (hfc : ctx.fcFreshId ≠ "") (hcall : ctx.callFreshId ≠ "")
    (chunks : List ChatCompletionChunk) (cs : List StreamChoice)
    (fin : StreamChoice)
    (hflat : chunks.flatMap (·.choices) = cs ++ [fin])
    (hcs : ∀ c ∈ cs, c.finish_reason = none)
    (hfin : fin.finish_reason.isSome = true) :
    ∀ pre e post, streamToEvents ctx chunks = pre ++ e :: post →
      isItemAdded e = true →
      post.countP (isItemDoneAt (addedIndex e)) = 1 := by
  intro pre e post heq hadd
  rw [streamToEvents_decomp ctx chunks cs fin hflat] at heq
  have hSS := stepSpec_preFin ctx hfc hcall cs fin
  have hPS := preSpec_preFin ctx cs fin hcs
  have hwfB : WF (stPreFin ctx cs fin) := hSS.wf WF_init
  obtain ⟨hFnoAdd, hFcount, _⟩ :=
    finishStep_spec ctx fin (stPreFin ctx cs fin) hfin hwfB
  have hBnoAdd : ∀ b ∈ (evsFin ctx cs fin ++
      [StreamEvent.response_completed (stFin ctx cs fin).seq
        { id := ctx.responseId, status := .completed,
          output := finalOutput ctx (stFin ctx cs fin),
          model := ctx.requestModel, created_at := ctx.created2 }]),
      isItemAdded b = false := by
    intro b hb
    rcases List.mem_append.mp hb with h | h
    · exact hFnoAdd b h
    · simp only [List.mem_singleton] at h
      subst h
      rfl
  have hAnoDone : ∀ a ∈ evsPreFin ctx cs fin,
      isItemDoneAt (addedIndex e) a = false := by
    intro a ha
    unfold evsPreFin at ha
    rcases List.mem_cons.mp ha with rfl | ha2
    · rfl
    rcases List.mem_cons.mp ha2 with rfl | ha3
    · rfl
    · have hnd := hPS.noDone a ha3
      by_contra hcon
      rw [isItemDoneAt_isDoneType (Bool.of_not_eq_false hcon)] at hnd
      cases hnd
  have hcount := countP_post_split isItemAdded (isItemDoneAt (addedIndex e))
    (evsPreFin ctx cs fin) _ pre post e heq hadd hAnoDone hBnoAdd
  have heA := split_mem_left isItemAdded (evsPreFin ctx cs fin) _
    pre post e heq hadd hBnoAdd
  have heBody : e ∈ bodyEvs ctx cs fin := by
    unfold evsPreFin at heA
    rcases List.mem_cons.mp heA with rfl | heA2
    · cases hadd
    rcases List.mem_cons.mp heA2 with rfl | heA3
    · cases hadd
    · exact heA3
  have hidx : addedIndex e = 0 := hPS.addedAt e heBody hadd
  have hOI : (stPreFin ctx cs fin).outputIndex = 0 := hPS.outIdx
  have hflags : ((stPreFin ctx cs fin).functionCallEmitted ||
      (stPreFin ctx cs fin).messageEmitted) = true := by
    rcases isItemAdded_or hadd with hkind | hkind
    · have hpos : 0 < (bodyEvs ctx cs fin).countP isAddedFC :=
        List.countP_pos_iff.mpr ⟨e, heBody, hkind⟩
      rw [hSS.fcCount rfl] at hpos
      by_cases hb : (stPreFin ctx cs fin).functionCallEmitted = true
      · simp [hb]
      · rw [if_neg hb] at hpos
        omega
    · have hpos : 0 < (bodyEvs ctx cs fin).countP isAddedMsg :=
        List.countP_pos_iff.mpr ⟨e, heBody, hkind⟩
      rw [hSS.msgCount rfl] at hpos
      by_cases hb : (stPreFin ctx cs fin).messageEmitted = true
      · simp [hb]
      · rw [if_neg hb] at hpos
        omega
  rw [hcount, hidx, List.countP_append]
  rw [hOI] at hFcount
  unfold evsFin
  rw [hFcount, if_pos hflags]
  simp [isItemDoneAt]

theorem isTextDone_isDoneType {e : StreamEvent} (h : isTextDone e = true) :
    isDoneType e = true := by
  cases e <;> simp_all [isTextDone, isDoneType]

theorem choicesText_concat (cs : List StreamChoice) (fin : StreamChoice) :
    choicesText (cs ++ [fin]) = choicesText cs ++ choiceText fin := by
  induction cs with
  | nil => simp [choicesText, String.empty_append, String.append_empty]
  | cons c cs ih =>
    simp only [List.cons_append, choicesText, List.append_eq, ih,
      String.append_assoc]

/-- C8 (amended): for a stream of non-finishing choices followed by one
finishing `stop` choice whose content deltas concatenate to a non-empty
text `T`, the emitted `output_text.delta` payloads concatenate to `T` and
the single `output_text.done` event carries exactly `T`. -/
theorem streamToEvents_text_amended (ctx : AdapterCtx)
    (hfc : ctx.fcFreshId ≠ "") (hcall : ctx.callFreshId ≠ "")
    (chunks : List ChatCompletionChunk) (cs : List StreamChoice)
    (fin : StreamChoice)
    (hflat : chunks.flatMap (·.choices) = cs ++ [fin])
    (hcs : ∀ c ∈ cs, c.finish_reason = none)
    (hfin : fin.finish_reason = some .stop)
    (hT : choicesText (cs ++ [fin]) ≠ "") :
    strConcat textDeltaStr (streamToEvents ctx chunks) =
      choicesText (cs ++ [fin]) ∧
    ((streamToEvents ctx chunks).filter isTextDone).map textDoneStr =
      [choicesText (cs ++ [fin])] := by
  have hfin' : fin.finish_reason.isSome = true := by rw [hfin]; rfl
  have hSS := stepSpec_preFin ctx hfc hcall cs fin
  have hPS := preSpec_preFin ctx cs fin hcs
  have hwfB : WF (stPreFin ctx cs fin) := hSS.wf WF_init
  obtain ⟨_, _, hFtext⟩ :=
    finishStep_spec ctx fin (stPreFin ctx cs fin) hfin' hwfB
  have hbodyText : strConcat textDeltaStr (bodyEvs ctx cs fin) =
      choicesText (cs ++ [fin]) := by
    unfold bodyEvs
    rw [strConcat_append, strConcat_append, textConcat_runChoices,
      textConcat_toolCallsStep, textConcat_contentStep,
      String.empty_append, choicesText_concat]
  have haccT : (stPreFin ctx cs fin).accText = choicesText (cs ++ [fin]) := by
    have := hSS.text
    simp only [String.empty_append] at this
    rw [this, hbodyText]
  have hmsgT : (stPreFin ctx cs fin).messageEmitted = true := by
    refine (hSS.msgOpenIff rfl).mpr ?_
    rw [hbodyText]
    exact hT
  have hpre : strConcat textDeltaStr (evsPreFin ctx cs fin) =
      strConcat textDeltaStr (bodyEvs ctx cs fin) := by
    unfold evsPreFin bodyEvs
    simp [strConcat, textDeltaStr, String.empty_append]
  rw [streamToEvents_decomp ctx chunks cs fin hflat]
  constructor
  · rw [strConcat_append, strConcat_append, hpre, hbodyText]
    unfold evsFin
    rw [textConcat_finishStep]
    simp [strConcat, textDeltaStr, String.append_empty]
  · rw [List.filter_append, List.filter_append]
    have hA : (evsPreFin ctx cs fin).filter isTextDone = [] := by
      rw [List.filter_eq_nil_iff]
      intro a ha
      unfold evsPreFin at ha
      rcases List.mem_cons.mp ha with rfl | ha2
      · simp [isTextDone]
      rcases List.mem_cons.mp ha2 with rfl | ha3
      · simp [isTextDone]
      · have hnd := hPS.noDone a ha3
        intro hcon
        rw [isTextDone_isDoneType (by simpa using hcon)] at hnd
        cases hnd
    have hC : ([StreamEvent.response_completed (stFin ctx cs fin).seq
        { id := ctx.responseId, status := .completed,
          output := finalOutput ctx (stFin ctx cs fin),
          model := ctx.requestModel,
          created_at := ctx.created2 }]).filter isTextDone = [] := by
      simp [isTextDone]
    rw [hA, hC, List.nil_append, List.append_nil]
    unfold evsFin
    rw [hFtext, if_pos hmsgT, haccT]

/-- C2, as stated, is false on the code: on a stream with one content chunk
and no finish, an `output_item.added` is emitted at index 0 but no
`output_item.done` ever follows; on a stream whose finish choice occurs
twice, the single added message is followed by two `output_item.done`
events at index 0. -/
theorem streamToEvents_added_done_counterexample :
    ((streamToEvents ⟨"m", "r", "msg", "fc", "call", 0, 0⟩
        [{ choices := [{ delta := { content := some "x" } }] }]).countP
          isItemAdded = 1 ∧
     (streamToEvents ⟨"m", "r", "msg", "fc", "call", 0, 0⟩
        [{ choices := [{ delta := { content := some "x" } }] }]).countP
          (isItemDoneAt 0) = 0) ∧
    ((streamToEvents ⟨"m", "r", "msg", "fc", "call", 0, 0⟩
        [{ choices := [{ delta := { content := some "x" } }] },
         { choices := [{ delta := {}, finish_reason := some .stop }] },
         { choices := [{ delta := {}, finish_reason := some .stop }] }]).countP
          isItemAdded = 1 ∧
     (streamToEvents ⟨"m", "r", "msg", "fc", "call", 0, 0⟩
        [{ choices := [{ delta := { content := some "x" } }] },
         { choices := [{ delta := {}, finish_reason := some .stop }] },
         { choices := [{ delta := {}, finish_reason := some .stop }] }]).countP
          (isItemDoneAt 0) = 2) := by
  decide

/-- C8, as stated, is false on the code: a stream whose content deltas
concatenate to `"x"` but which carries two `stop` finishes emits two
`output_text.done` events, and a bare `stop` finish with no content emits
none. -/
theorem streamToEvents_text_counterexample :
    (((streamToEvents ⟨"m", "r", "msg", "fc", "call", 0, 0⟩
        [{ choices := [{ delta := { content := some "x" } }] },
         { choices := [{ delta := {}, finish_reason := some .stop }] },
         { choices := [{ delta := {}, finish_reason := some .stop }] }]).filter
          isTextDone).length = 2) ∧
    (((streamToEvents ⟨"m", "r", "msg", "fc", "call", 0, 0⟩
        [{ choices := [{ delta := {}, finish_reason := some .stop }] }]).filter
          isTextDone).length = 0) := by
  decide

/-! ## A concrete stream: the spec's tool-call-then-text scenario. -/

def specCtx : AdapterCtx := ⟨"mod", "resp1", "msg1", "fc1", "call9", 100, 200⟩

def specCs : List StreamChoice :=
  [{ delta :=
       { tool_calls :=
           some [{ id := some "call_1",
                   function := some { name := some "f" } }] } },
   { delta :=
       { tool_calls :=
           some [{ function := some { arguments := some "\x7b\"x\":" } }] } },
   { delta :=
       { tool_calls :=
           some [{ function := some { arguments := some "1\x7d" } }] } },
   { delta := { content := some "done" } }]

def specFin : StreamChoice := { delta := {}, finish_reason := some .stop }

def specChunks : List ChatCompletionChunk :=
  specCs.map (fun c => ({ choices := [c] } : ChatCompletionChunk)) ++
    [{ choices := [specFin] }]

theorem streamToEvents_added_done_witness :
    ((streamToEvents specCtx specChunks).drop 3).countP
      (isItemDoneAt (addedIndex (StreamEvent.output_item_added 2 0
        (.function_call "fc1" "f" "call_1" "" .in_progress)))) = 1 :=
  streamToEvents_added_done_amended specCtx (by decide) (by decide)
    specChunks specCs specFin (by decide) (by decide) (by decide)
    ((streamToEvents specCtx specChunks).take 2)
    (StreamEvent.output_item_added 2 0
      (.function_call "fc1" "f" "call_1" "" .in_progress))
    ((streamToEvents specCtx specChunks).drop 3)
    (by decide) (by decide)

theorem streamToEvents_text_witness :
    strConcat textDeltaStr (streamToEvents specCtx specChunks) =
      choicesText (specCs ++ [specFin]) ∧
    ((streamToEvents specCtx specChunks).filter isTextDone).map textDoneStr =
      [choicesText (specCs ++ [specFin])] :=
  streamToEvents_text_amended specCtx (by decide) (by decide)
    specChunks specCs specFin (by decide) (by decide) (by decide) (by decide)

theorem streamToEvents_single_items_witness :
    (streamToEvents specCtx specChunks).countP isAddedFC ≤ 1 ∧
    (streamToEvents specCtx specChunks).countP isAddedMsg ≤ 1 ∧
    ∀ r ∈ completedResponses (streamToEvents specCtx specChunks),
      r.output.length ≤ 2 ∧
      ∀ id nm cid args stat,
        OutputItem.function_call id nm cid args stat ∈ r.output →
        args = strConcat argDeltaStr (streamToEvents specCtx specChunks) :=
  streamToEvents_single_items specCtx (by decide) (by decide) specChunks

/-! ## Cache claims. -/

/-- C4: two requests that agree on `model`, `messages`, `temperature`,
`top_p`, `max_tokens`, `stop`, `presence_penalty` and `frequency_penalty`
(differing only in `provider`, `cache`, `stream`, `user`) receive identical
cache keys, in both the Node and the Workers key function. -/
theorem cacheKey_ignores_gateway_fields (r1 r2 : ChatCompletionRequest)
    (hm : r1.model = r2.model) (hmsg : r1.messages = r2.messages)
    (ht : r1.temperature = r2.temperature) (hp : r1.top_p = r2.top_p)
    (hmax : r1.max_tokens = r2.max_tokens) (hstop : r1.stop = r2.stop)
    (hpp : r1.presence_penalty = r2.presence_penalty)
    (hfp : r1.frequency_penalty = r2.frequency_penalty) :
    generateCacheKey r1 = generateCacheKey r2 ∧
    workersGenerateCacheKey r1 = workersGenerateCacheKey r2 := by
  have hj : cacheKeyJson r1 = cacheKeyJson r2 := by
    unfold cacheKeyJson
    rw [hm, hmsg, ht, hp, hmax, hstop, hpp, hfp]
  constructor
  · unfold generateCacheKey
    rw [hj]
  · unfold workersGenerateCacheKey
    rw [hj]

theorem cacheKey_ignores_gateway_fields_witness :
    generateCacheKey
      { model := "m", messages := [{ role := .user, content := some "hi" }],
        temperature := some 1, stream := some true, user := some "alice",
        provider := some "groq", cache := some false } =
    generateCacheKey
      { model := "m", messages := [{ role := .user, content := some "hi" }],
        temperature := some 1 } ∧
    workersGenerateCacheKey
      { model := "m", messages := [{ role := .user, content := some "hi" }],
        temperature := some 1, stream := some true, user := some "alice",
        provider := some "groq", cache := some false } =
    workersGenerateCacheKey
      { model := "m", messages := [{ role := .user, content := some "hi" }],
        temperature := some 1 } :=
  cacheKey_ignores_gateway_fields _ _ rfl rfl rfl rfl rfl rfl rfl rfl

/-- C3, as stated, is false on the code: neither `CacheManager.get` nor the
Workers `getFromCache` checks `request.stream`, so a streaming request whose
key is present in the backend is read from the cache. -/
theorem cache_stream_get_counterexample :
    (CacheManager.get
      ⟨true, some [(generateCacheKey { model := "m", messages := [], stream := some true },
        { id := "r", created := 0, model := "m", choices := [], usage := ⟨1, 1, 2⟩ })]⟩
      { model := "m", messages := [], stream := some true } =
      some (markCached
        { id := "r", created := 0, model := "m", choices := [], usage := ⟨1, 1, 2⟩ })) ∧
    (getFromCache
      ⟨some [(workersGenerateCacheKey { model := "m", messages := [], stream := some true },
        { id := "r", created := 0, model := "m", choices := [], usage := ⟨1, 1, 2⟩ })]⟩
      { model := "m", messages := [], stream := some true } =
      some (markCached
        { id := "r", created := 0, model := "m", choices := [], usage := ⟨1, 1, 2⟩ })) := by
  constructor
  · unfold CacheManager.get CacheManager.isEnabled
    simp [List.lookup]
  · unfold getFromCache
    simp [List.lookup]

/-- C3 (amended): `get` returns empty when caching is disabled or the
request sets `cache = false`; `set` is additionally a no-op when
`stream = true`, so a streaming request is never written to the cache —
but `get` itself performs no `stream` check. -/
theorem cache_policy (m : CacheManager) (env : WorkersEnv)
    (req : ChatCompletionRequest) (resp : ChatCompletionResponse) :
    (m.isEnabled = false → m.get req = none ∧ m.set req resp = m) ∧
    (req.cache = some false →
      m.get req = none ∧ m.set req resp = m ∧
      getFromCache env req = none ∧ setInCache env req resp = env) ∧
    (req.stream = some true →
      m.set req resp = m ∧ setInCache env req resp = env) ∧
    (env.cacheKV = none →
      getFromCache env req = none ∧ setInCache env req resp = env) := by
  refine ⟨?_, ?_, ?_, ?_⟩
  · intro h
    constructor
    · unfold CacheManager.get
      simp [h]
    · unfold CacheManager.set
      simp [h]
  · intro h
    refine ⟨?_, ?_, ?_, ?_⟩
    · unfold CacheManager.get
      by_cases he : m.isEnabled <;> simp [he, h]
    · unfold CacheManager.set
      by_cases he : m.isEnabled <;> simp [he, h]
    · unfold getFromCache
      cases env.cacheKV <;> simp [h]
    · unfold setInCache
      cases henv : env.cacheKV <;> simp [h]
  · intro h
    constructor
    · unfold CacheManager.set
      by_cases he : m.isEnabled <;>
        by_cases hc : req.cache = some false <;> simp [he, hc, h]
    · unfold setInCache
      cases henv : env.cacheKV with
      | none => rfl
      | some kv =>
        by_cases hc : req.cache = some false <;> simp [hc, h]
  · intro h
    constructor
    · unfold getFromCache
      rw [h]
    · unfold setInCache
      rw [h]

theorem cache_policy_witness :
    CacheManager.set ⟨true, some []⟩
      { model := "m", messages := [], stream := some true }
      { id := "r", created := 0, model := "m", choices := [], usage := ⟨1, 1, 2⟩ } =
      ⟨true, some []⟩ ∧
    setInCache ⟨some []⟩
      { model := "m", messages := [], stream := some true }
      { id := "r", created := 0, model := "m", choices := [], usage := ⟨1, 1, 2⟩ } =
      ⟨some []⟩ :=
  (cache_policy ⟨true, some []⟩ ⟨some []⟩
    { model := "m", messages := [], stream := some true }
    { id := "r", created := 0, model := "m", choices := [], usage := ⟨1, 1, 2⟩ }).2.2.1 rfl

/-! ## Router (`src/src/router.ts` and `src/workers/src/router.ts`).
The provider registry is modelled by the list of enabled provider names
(`registry.has` = membership); `Math.random()`-driven choices are a
`rand` parameter. -/

/-- `Router.resolveModelAlias`:
`aliases[model] && aliases[model][providerName]` with JS truthiness. -/
def resolveModelAlias (aliases : List (String × List (String × String)))
    (model providerName : String) : String :=
  match aliases.lookup model with
  | some m =>
    match m.lookup providerName with
    | some native => if native != "" then native else model
    | none => model
  | none => model

/-- `RoutingStrategy` (`latency` is reserved and falls into the default
branch of the strategy switch). -/
inductive Strategy where
  | round_robin | random | first_available | latency
  deriving DecidableEq, Repr

/-- The router's mutable `roundRobinIndex: Map<string, number>`. -/
structure RouterState where
  roundRobinIndex : List (String × Nat)
  deriving DecidableEq, Repr

/-- `Router.roundRobinOrder`: rotate by the per-model counter
(`this.roundRobinIndex.get(key) || 0`) and post-increment it modulo the
list length.  With an empty list JS stores `NaN`, which reads back as `0`
through `|| 0`; that is modelled by storing `0`. -/
def roundRobinOrder (st : RouterState) (providers : List String)
    (model : String) : List String × RouterState :=
  let currentIndex := (st.roundRobinIndex.lookup model).getD 0
  (providers.drop currentIndex ++ providers.take currentIndex,
   ⟨(model, if providers.length = 0 then 0
      else (currentIndex + 1) % providers.length) :: st.roundRobinIndex⟩)

def jsSwap (l : List α) (i j : Nat) : List α :=
  match l.get? i, l.get? j with
  | some vi, some vj => (l.set i vj).set j vi
  | _, _ => l

def shuffleAux (rand : Nat → Nat) : List α → Nat → List α
  | l, 0 => l
  | l, i + 1 => shuffleAux rand (jsSwap l (i + 1) (rand (i + 1) % (i + 2))) i

/-- `shuffleArray` (Fisher–Yates); `Math.floor(Math.random()*(i+1))` is
modelled as `rand i % (i+1)`. -/
def shuffleArray (rand : Nat → Nat) (l : List α) : List α :=
  shuffleAux rand l (l.length - 1)

/-- The `availableProviders` computation of `Router.getProviderOrder`:
the fallback chain filtered to enabled providers. -/
def nodeAvailableProviders (registryNames fallbackChain : List String) :
    List String :=
  fallbackChain.filter (registryNames.contains ·)

/-- `Router.getProviderOrder`. -/
def getProviderOrder (registryNames : List String) (strategy : Strategy)
    (fallbackChain : List String) (rand : Nat → Nat) (st : RouterState)
    (req : ChatCompletionRequest) : List String × RouterState :=
  if optTruthy req.provider then
    ((if registryNames.contains (req.provider.getD "")
      then [req.provider.getD ""] else []), st)
  else
    let availableProviders := nodeAvailableProviders registryNames fallbackChain
    match strategy with
    | .round_robin => roundRobinOrder st availableProviders req.model
    | .random => (shuffleArray rand availableProviders, st)
    | _ => (availableProviders, st)

/-- A Workers provider descriptor; only `name` and `models` are read by the
routing functions modelled here. -/
structure WorkersProviderConfig where
  name : String
  models : List String := []
  deriving DecidableEq, Repr

/-- The `ordered` computation of the Workers `getProviderOrder`:
`env.FALLBACK_CHAIN?.split(',').map(trim) || providers.map(name)`, then
each name mapped through `providers.find`. -/
def workersOrderedCandidates (providers : List WorkersProviderConfig)
    (fallbackChainEnv : Option String) : List WorkersProviderConfig :=
  let fallbackChain : List String := match fallbackChainEnv with
    | none => providers.map (·.name)
    | some s => (s.splitOn ",").map (fun x => x.trim)
  fallbackChain.filterMap (fun nm => providers.find? (fun p => p.name == nm))

/-- Workers `getProviderOrder` (strategy is the string
`env.DEFAULT_STRATEGY || 'round-robin'`). -/
def workersGetProviderOrder (providers : List WorkersProviderConfig)
    (req : ChatCompletionRequest) (fallbackChainEnv : Option String)
    (strategyEnv : Option String) (rand : Nat → Nat)
    (rr : List (String × Nat)) :
    List WorkersProviderConfig × List (String × Nat) :=
  if optTruthy req.provider then
    ((match providers.find? (fun p => p.name == req.provider.getD "") with
      | some p => [p]
      | none => []), rr)
  else
    let ordered := workersOrderedCandidates providers fallbackChainEnv
    let strategy := if optTruthy strategyEnv then strategyEnv.getD ""
      else "round-robin"
    if strategy == "random" then (shuffleArray rand ordered, rr)
    else if strategy == "round-robin" then
      let idx := (rr.lookup req.model).getD 0
      (ordered.drop idx ++ ordered.take idx,
       (req.model, if ordered.length = 0 then 0
          else (idx + 1) % ordered.length) :: rr)
    else (ordered, rr)

/-! ## Round-robin fairness (C6). -/

/-- Successive full orderings returned by `k` consecutive
`roundRobinOrder` calls for the same model. -/
def rrCalls (providers : List String) (model : String) :
    RouterState → Nat → List (List String)
  | _, 0 => []
  | st, k + 1 =>
    let r := roundRobinOrder st providers model
    r.1 :: rrCalls providers model r.2 k

/-- One rotation of a list. -/
def rotateOnce (l : List α) (c : Nat) : List α := l.drop c ++ l.take c

/-- Heads of `k` successive rotations starting at counter `c`. -/
def rrHeads (l : List String) : Nat → Nat → List (Option String)
  | c, 0 => []
  | c, k + 1 => (rotateOnce l c).head? :: rrHeads l ((c + 1) % l.length) k

theorem rrCalls_heads (providers : List String) (model : String)
    (hlen : 0 < providers.length) :
    ∀ (k : Nat) (st : RouterState),
      ((rrCalls providers model st k).map List.head?) =
        rrHeads providers ((st.roundRobinIndex.lookup model).getD 0) k := by
  intro k
  induction k with
  | zero => intro st; rfl
  | succ k ih =>
    intro st
    simp only [rrCalls, roundRobinOrder, List.map_cons, rrHeads]
    congr 1
    have := ih ⟨(model, if providers.length = 0 then 0
      else (((st.roundRobinIndex.lookup model).getD 0) + 1) %
        providers.length) :: st.roundRobinIndex⟩
    rw [this]
    simp [List.lookup, Nat.pos_iff_ne_zero.mp hlen]

theorem rrHeads_no_wrap (l : List String) (hlen : 0 < l.length) :
    ∀ (k c : Nat), c + k ≤ l.length →
      rrHeads l c k = ((l.drop c).take k).map some := by
  intro k
  induction k with
  | zero => intro c _; rfl
  | succ k ih =>
    intro c hck
    have hc : c < l.length := by omega
    have hdrop : l.drop c = l[c] :: l.drop (c + 1) :=
      List.drop_eq_getElem_cons hc
    simp only [rrHeads, rotateOnce]
    rw [hdrop, List.take_succ_cons, List.map_cons, List.cons_append]
    show some l[c] :: _ = some l[c] :: _
    congr 1
    cases k with
    | zero => rfl
    | succ k2 =>
      have hlt : c + 1 < l.length := by omega
      rw [Nat.mod_eq_of_lt hlt]
      exact ih (c + 1) (by omega)

theorem rrHeads_split (l : List String) (hlen : 0 < l.length) :
    ∀ (k1 k2 c : Nat), c < l.length →
      rrHeads l c (k1 + k2) =
        rrHeads l c k1 ++ rrHeads l ((c + k1) % l.length) k2 := by
  intro k1
  induction k1 with
  | zero =>
    intro k2 c hc
    simp only [Nat.zero_add, rrHeads, List.nil_append, Nat.add_zero,
      Nat.mod_eq_of_lt hc]
  | succ k1 ih =>
    intro k2 c hc
    have h1 : k1 + 1 + k2 = (k1 + k2) + 1 := by omega
    rw [h1]
    simp only [rrHeads, List.cons_append]
    congr 1
    rw [ih k2 ((c + 1) % l.length) (Nat.mod_lt _ hlen)]
    congr 2
    rw [Nat.mod_add_mod]
    congr 1
    omega

theorem rrHeads_full (l : List String) (c : Nat) (hc : c < l.length) :
    rrHeads l c l.length = (rotateOnce l c).map some := by
  have hlen0 : 0 < l.length := by omega
  have h1 : l.length = (l.length - c) + c := by omega
  rw [h1, rrHeads_split l hlen0 _ _ c hc]
  have h2 : (c + (l.length - c)) % l.length = 0 := by
    have : c + (l.length - c) = l.length := by omega
    rw [this, Nat.mod_self]
  rw [h2]
  have hlen : 0 < l.length := by omega
  rw [rrHeads_no_wrap l hlen (l.length - c) c (by omega),
    rrHeads_no_wrap l hlen c 0 (by omega)]
  have h3 : (l.drop c).take (l.length - c) = l.drop c := by
    rw [List.take_of_length_le]
    rw [List.length_drop]
  have h4 : (l.drop 0).take c = l.take c := by rw [List.drop_zero]
  rw [h3, h4, rotateOnce, List.map_append]

theorem countP_beq_one_of_nodup (l : List String) (hn : l.Nodup)
    (p : String) (hp : p ∈ l) : l.countP (fun x => x == p) = 1 := by
  induction l with
  | nil => cases hp
  | cons a l ih =>
    rw [List.nodup_cons] at hn
    rw [List.countP_cons]
    rcases List.mem_cons.mp hp with rfl | hpl
    · have h0 : l.countP (fun x => x == p) = 0 := by
        rw [List.countP_eq_zero]
        intro x hx
        simp only [beq_iff_eq]
        intro hxa
        exact hn.1 (hxa ▸ hx)
      simp [h0]
    · have hne : (a == p) = false := by
        simp only [beq_eq_false_iff_ne]
        intro hc
        exact hn.1 (hc ▸ hpl)
      rw [ih hn.2 hpl, hne]
      rfl

/-- C6: starting from any reachable counter (`c < N`), `N` consecutive
round-robin calls for the same model return orderings whose heads are a
permutation of the provider list; with distinct providers each provider is
first exactly once. -/
theorem roundRobin_fair (providers : List String) (model : String)
    (st : RouterState)
    (hc : ((st.roundRobinIndex.lookup model).getD 0) < providers.length) :
    (((rrCalls providers model st providers.length).map List.head?).Perm
      (providers.map some)) ∧
    (providers.Nodup → ∀ p ∈ providers,
      ((rrCalls providers model st providers.length).map List.head?).countP
        (fun o => o == some p) = 1) := by
  have hlen : 0 < providers.length := by omega
  have hperm : (((rrCalls providers model st providers.length).map
      List.head?)).Perm (providers.map some) := by
    rw [rrCalls_heads providers model hlen, rrHeads_full providers _ hc]
    refine List.Perm.map some ?_
    unfold rotateOnce
    have h : (providers.drop ((st.roundRobinIndex.lookup model).getD 0) ++
        providers.take ((st.roundRobinIndex.lookup model).getD 0)).Perm
        (providers.take ((st.roundRobinIndex.lookup model).getD 0) ++
         providers.drop ((st.roundRobinIndex.lookup model).getD 0)) :=
      List.perm_append_comm
    rw [List.take_append_drop] at h
    exact h
  refine ⟨hperm, ?_⟩
  intro hnodup p hp
  rw [hperm.countP_eq, List.countP_map]
  have hfun : ((fun o => o == some p) ∘ some : String → Bool) =
      (fun x => x == p) := by
    funext x
    rfl
  rw [hfun]
  exact countP_beq_one_of_nodup providers hnodup p hp

theorem roundRobin_fair_witness :
    ((((rrCalls ["groq", "together", "cerebras"] "llama" ⟨[("llama", 1)]⟩
        3).map List.head?).Perm
      ((["groq", "together", "cerebras"] : List String).map some)) ∧
     ((["groq", "together", "cerebras"] : List String).Nodup →
      ∀ p ∈ (["groq", "together", "cerebras"] : List String),
        ((rrCalls ["groq", "together", "cerebras"] "llama" ⟨[("llama", 1)]⟩
          3).map List.head?).countP (fun o => o == some p) = 1)) :=
  roundRobin_fair ["groq", "together", "cerebras"] "llama" ⟨[("llama", 1)]⟩
    (by decide)

/-! ## Fallback candidate selection (C7). -/

theorem find?_name_self (full : List WorkersProviderConfig)
    (hnodup : (full.map (·.name)).Nodup) :
    ∀ x ∈ full, full.find? (fun p => p.name == x.name) = some x := by
  induction full with
  | nil => intro x hx; cases hx
  | cons a rest ih =>
    rw [List.map_cons, List.nodup_cons] at hnodup
    intro x hx
    rcases List.mem_cons.mp hx with rfl | hxr
    · simp [List.find?]
    · have hne : (a.name == x.name) = false := by
        simp only [beq_eq_false_iff_ne]
        intro hc
        exact hnodup.1 (hc ▸ List.mem_map_of_mem (·.name) hxr)
      rw [List.find?_cons, hne]
      exact ih hnodup.2 x hxr

theorem filterMap_find_self (full : List WorkersProviderConfig) :
    ∀ l : List WorkersProviderConfig,
      (∀ x ∈ l, full.find? (fun p => p.name == x.name) = some x) →
      (l.map (·.name)).filterMap
        (fun nm => full.find? (fun p => p.name == nm)) = l := by
  intro l
  induction l with
  | nil => intro _; rfl
  | cons x xs ih =>
    intro h
    rw [List.map_cons, List.filterMap_cons, h x (List.mem_cons_self x xs),
      ih (fun y hy => h y (List.mem_cons_of_mem x hy))]

/-- With no `FALLBACK_CHAIN` configured, the Workers candidate list is all
enabled providers in configuration order. -/
theorem workersOrdered_none (providers : List WorkersProviderConfig)
    (hnodup : (providers.map (·.name)).Nodup) :
    workersOrderedCandidates providers none = providers := by
  unfold workersOrderedCandidates
  exact filterMap_find_self providers providers (find?_name_self providers hnodup)

/-- C7: a request with no explicit provider draws its candidates from the
configured fallback chain filtered to enabled providers (Node router), and
when no chain is configured the Workers router uses all enabled providers
in configuration order, never an empty list for a non-empty registry. -/
theorem providerOrder_fallback
    (registryNames fallbackChain : List String) (rand : Nat → Nat)
    (st : RouterState) (req : ChatCompletionRequest)
    (hprov : req.provider = none)
    (providers : List WorkersProviderConfig)
    (hnodup : (providers.map (·.name)).Nodup)
    (rr : List (String × Nat)) :
    (getProviderOrder registryNames .first_available fallbackChain rand st req).1 =
      fallbackChain.filter (registryNames.contains ·) ∧
    workersOrderedCandidates providers none = providers ∧
    (providers ≠ [] → workersOrderedCandidates providers none ≠ []) ∧
    (workersGetProviderOrder providers req none (some "first-available")
      rand rr).1 = providers := by
  have hord := workersOrdered_none providers hnodup
  refine ⟨?_, hord, ?_, ?_⟩
  · unfold getProviderOrder nodeAvailableProviders
    simp [hprov, optTruthy]
  · intro h
    rw [hord]
    exact h
  · unfold workersGetProviderOrder
    simp [hprov, optTruthy, hord]

theorem providerOrder_fallback_witness :
    (getProviderOrder ["groq", "together"] .first_available
      ["together", "groq", "cerebras"] (fun _ => 0) ⟨[]⟩
      { model := "m", messages := [] }).1 =
      (["together", "groq", "cerebras"] : List String).filter
        ((["groq", "together"] : List String).contains ·) ∧
    workersOrderedCandidates
      [⟨"groq", ["m"]⟩, ⟨"together", ["m"]⟩] none =
      [⟨"groq", ["m"]⟩, ⟨"together", ["m"]⟩] ∧
    (([⟨"groq", ["m"]⟩, ⟨"together", ["m"]⟩] :
        List WorkersProviderConfig) ≠ [] →
      workersOrderedCandidates
        [⟨"groq", ["m"]⟩, ⟨"together", ["m"]⟩] none ≠ []) ∧
    (workersGetProviderOrder [⟨"groq", ["m"]⟩, ⟨"together", ["m"]⟩]
      { model := "m", messages := [] } none (some "first-available")
      (fun _ => 0) []).1 = [⟨"groq", ["m"]⟩, ⟨"together", ["m"]⟩] :=
  providerOrder_fallback ["groq", "together"] ["together", "groq", "cerebras"]
    (fun _ => 0) ⟨[]⟩ { model := "m", messages := [] } rfl
    [⟨"groq", ["m"]⟩, ⟨"together", ["m"]⟩] (by decide) []

/-! ## Streaming routing (C1, `Router.routeChatCompletionStream`).
Chunks already yielded to the caller cannot be un-yielded; a provider's
stream outcome is its chunk list plus `none` (clean end) or `some err`
(header-phase failure when the list is empty, mid-stream failure
otherwise).  The router pipes chunks verbatim and — per the `try`/`catch`
around the piping loop — catches *any* error, including one thrown after
chunks were yielded, and continues with the next candidate. -/

structure ProviderSim (α : Type) where
  name : String
  models : List String
  streamChunks : List α
  streamErr : Option String

/-- The per-candidate loop of `routeChatCompletionStream`: skip providers
that do not support the resolved model; pipe the chunks; on an error
(header or mid-stream) record it and continue; on clean end return. -/
def routeStreamLoop (aliases : List (String × List (String × String)))
    (model : String) :
    List (ProviderSim α) → Option String → List α × Option String
  | [], lastError =>
    ([], some ("All providers failed for streaming. Last error: " ++
      lastError.getD "Unknown error"))
  | p :: rest, lastError =>
    let resolvedModel := resolveModelAlias aliases model p.name
    if !p.models.contains resolvedModel then
      routeStreamLoop aliases model rest lastError
    else
      match p.streamErr with
      | none => (p.streamChunks, none)
      | some e =>
        let r := routeStreamLoop aliases model rest (some e)
        (p.streamChunks ++ r.1, r.2)

/-- `Router.routeChatCompletionStream` over an already-ordered candidate
list: the chunks the caller receives and the error surfaced (if any). -/
def routeChatCompletionStream (aliases : List (String × List (String × String)))
    (model : String) (providerOrder : List (ProviderSim α)) :
    List α × Option String :=
  if providerOrder.isEmpty then
    ([], some "No providers available for this request")
  else routeStreamLoop aliases model providerOrder none

/-- C1 fails on the code (`code_bug`): with two candidates both supporting
the model, where the first streams one chunk and then throws and the second
streams cleanly, the router yields the second candidate's chunk after the
first candidate's chunk and surfaces no error — mid-stream fallback. -/
theorem routeStream_midstream_fallback :
    routeChatCompletionStream [] "m"
      [⟨"p1", ["m"], [({ id := "a", choices := [] } : ChatCompletionChunk)],
        some "connection reset"⟩,
       ⟨"p2", ["m"], [({ id := "b", choices := [] } : ChatCompletionChunk)],
        none⟩] =
      ([({ id := "a", choices := [] } : ChatCompletionChunk),
        ({ id := "b", choices := [] } : ChatCompletionChunk)], none) := by
  decide

end LLMux
